import Mathlib

/-!
# lua-git `src/zlib.c`: a shallow embedding of the zlib binding

The file embeds the three pieces of `src/zlib.c` that carry behaviour:

* `lz_version` (lines 51-74): the scan of the zlib version string;
* `lz_assert` (lines 76-110): the mapping of zlib status codes to Lua errors;
* `lz_filter_impl` (lines 121-216) with the constructors `lz_deflate_new`,
  `lz_inflate_new` and the `__gc` handlers `lz_deflate_delete`,
  `lz_inflate_delete`: the streaming session.

zlib itself (`deflate`, `inflate`, `deflateEnd`, ...) is an external library.
It enters the embedding as a parameter, `Codec`, so every theorem holds for
any behaviour of the library.  The Lua C API calls are modelled by what the
Lua reference manual says they do.
-/

namespace LuaZlib

/-! ## zlib.h constants -/

/-- Flush mode `Z_NO_FLUSH` of zlib.h. -/
def Z_NO_FLUSH : Int := 0
/-- Flush mode `Z_SYNC_FLUSH` of zlib.h. -/
def Z_SYNC_FLUSH : Int := 2
/-- Flush mode `Z_FULL_FLUSH` of zlib.h. -/
def Z_FULL_FLUSH : Int := 3
/-- Flush mode `Z_FINISH` of zlib.h. -/
def Z_FINISH : Int := 4

/-- Status `Z_OK` of zlib.h. -/
def Z_OK : Int := 0
/-- Status `Z_STREAM_END` of zlib.h. -/
def Z_STREAM_END : Int := 1
/-- Status `Z_NEED_DICT` of zlib.h. -/
def Z_NEED_DICT : Int := 2
/-- Status `Z_ERRNO` of zlib.h (no case of its own in `lz_assert`). -/
def Z_ERRNO : Int := -1
/-- Status `Z_STREAM_ERROR` of zlib.h. -/
def Z_STREAM_ERROR : Int := -2
/-- Status `Z_DATA_ERROR` of zlib.h. -/
def Z_DATA_ERROR : Int := -3
/-- Status `Z_MEM_ERROR` of zlib.h. -/
def Z_MEM_ERROR : Int := -4
/-- Status `Z_BUF_ERROR` of zlib.h. -/
def Z_BUF_ERROR : Int := -5
/-- Status `Z_VERSION_ERROR` of zlib.h. -/
def Z_VERSION_ERROR : Int := -6

/-! ## Lua values and errors -/

/-- A Lua value as the C API of this module can tell values apart.  A Lua
string is a byte string; it is a `String` here, one character per byte.  Numbers are
integer valued (the module itself only pushes byte counts and version
components); `other` stands for any value that is neither nil, a number nor a
string (boolean, table, function, userdata, thread) and carries the name
`lua_typename` gives it. -/
inductive LuaValue where
  | nil
  | boolean (b : Bool)
  | number (n : Int)
  | string (s : String)
  | other (typename : String)
  deriving DecidableEq, Repr

/-- An error raised through `lua_error`.  `msg` carries the string the module
pushed before raising.  `arg` is an error raised by `luaL_argerror` for
argument number `narg` with the extra message `extramsg` (the full text also
names the called function from debug information, which is not modelled). -/
inductive LuaError where
  | msg (text : String)
  | arg (narg : Nat) (extramsg : String)
  deriving DecidableEq, Repr

/-- The constants the C preprocessor and the linked libraries contribute:
`LUAL_BUFFERSIZE` of luaconf.h, the `__FILE__` of the translation unit,
`ZLIB_VERSION` of the zlib.h compiled against and the string `zlibVersion()`
returns at run time. -/
structure Env where
  LUAL_BUFFERSIZE : Nat
  file : String
  ZLIB_VERSION : String
  zlibVersion : String
  deriving DecidableEq, Repr

/-- The fields of a `z_stream` the module reads or writes.  `next_in` is the
input cursor: `none` is the NULL pointer, `some s` the bytes still to be read,
so `avail_in` is the length of `s`.  `state` is zlib's private state, of an
arbitrary type.  The output cursor (`next_out`, `avail_out`) is set afresh
before every codec step and is part of the step, see `Codec.filter`. -/
structure ZStream (σ : Type) where
  next_in : Option String
  total_in : Nat
  total_out : Nat
  msg : Option String
  state : σ
  deriving DecidableEq, Repr

/-- The `avail_in` field: number of bytes behind `next_in`. -/
def ZStream.avail_in {σ : Type} (z : ZStream σ) : Nat :=
  match z.next_in with
  | none => 0
  | some s => s.length

/-! ## `lz_assert` (lines 76-110) -/

/-- Rendering of a `char*` by the `%s` of `lua_pushfstring`: a NULL pointer
prints as `(null)`. -/
def fmt_s (s : Option String) : String :=
  match s with
  | none => "(null)"
  | some t => t

/-- Lines 76-110.  `Except.ok result` is the normal return, `Except.error`
the `lua_error` raised with the pushed message. -/
def lz_assert {σ : Type} (e : Env) (result : Int) (stream : ZStream σ)
    (file : String) (line : Nat) : Except LuaError Int :=
  if result = Z_OK ∨ result = Z_STREAM_END then .ok result
  else if result = Z_NEED_DICT then
    .error (.msg ("RequiresDictionary: input stream requires a dictionary to be deflated ("
      ++ fmt_s stream.msg ++ ") at " ++ file ++ " line " ++ toString line))
  else if result = Z_STREAM_ERROR then
    .error (.msg ("InternalError: inconsistent internal zlib stream ("
      ++ fmt_s stream.msg ++ ") at " ++ file ++ " line " ++ toString line))
  else if result = Z_DATA_ERROR then
    .error (.msg ("InvalidInput: input string does not conform to zlib format or checksum failed at "
      ++ file ++ " line " ++ toString line))
  else if result = Z_MEM_ERROR then
    .error (.msg ("OutOfMemory: not enough memory ("
      ++ fmt_s stream.msg ++ ") at " ++ file ++ " line " ++ toString line))
  else if result = Z_BUF_ERROR then
    .error (.msg ("InternalError: no progress possible ("
      ++ fmt_s stream.msg ++ ") at " ++ file ++ " line " ++ toString line))
  else if result = Z_VERSION_ERROR then
    .error (.msg ("IncompatibleLibrary: built with version " ++ e.ZLIB_VERSION
      ++ ", but dynamically linked with version " ++ e.zlibVersion ++ " ("
      ++ fmt_s stream.msg ++ ") at " ++ file ++ " line " ++ toString line))
  else
    .error (.msg ("ZLibError: unknown code " ++ toString result ++ " ("
      ++ fmt_s stream.msg ++ ") at " ++ file ++ " line " ++ toString line))

/-- The tag of an error message: the text before the first colon. -/
def errorTag (m : String) : String :=
  String.mk (m.data.takeWhile (fun c => c != ':'))

/-! ## `lz_version` (lines 51-74) -/

/-- The `isdigit` of ctype.h in the C locale. -/
def isdigit (c : Char) : Bool := '0' ≤ c ∧ c ≤ '9'

/-- The `isspace` of ctype.h in the C locale. -/
def isspace (c : Char) : Bool :=
  c = ' ' ∨ c = '\t' ∨ c = '\n' ∨ c = Char.ofNat 11 ∨ c = Char.ofNat 12 ∨ c = '\r'

/-- The number a string of decimal digits denotes. -/
def decimalValue (ds : List Char) : Nat :=
  ds.foldl (fun acc c => acc * 10 + (c.toNat - '0'.toNat)) 0

/-- Reduction of an integer to the range of a 32-bit `int`. -/
def wrapInt32 (n : Int) : Int := (n + 2 ^ 31) % 2 ^ 32 - 2 ^ 31

/-- The `atoi` of stdlib.h: leading white space, an optional sign, then the
longest run of digits.  A value outside the range of `int` is undefined
behaviour in C; it is reduced modulo 2^32 here, and the theorems about
`lz_version` assume every run fits. -/
def atoi (s : List Char) : Int :=
  let t := s.dropWhile isspace
  match t with
  | '-' :: u => wrapInt32 (-(decimalValue (u.takeWhile isdigit) : Int))
  | '+' :: u => wrapInt32 (decimalValue (u.takeWhile isdigit) : Int)
  | _ => wrapInt32 (decimalValue (t.takeWhile isdigit) : Int)

/-- Lines 57-71, the `while ( *cur )` loop.  A C string is the list of its
characters before the terminating NUL; `cur` is the suffix the pointer
designates and `stack` the numbers pushed so far (the Lua stack is taken to
have room for every push; the source does not call `lua_checkstack`).  Every
iteration moves `cur` forward, so a fuel of the string length plus one is never
exhausted. -/
def lz_version_loop : Nat → List Char → List Int → List Int
  | 0, _, stack => stack
  | fuel + 1, cur, stack =>
    match cur with
    | [] => stack
    | _ :: _ =>
      -- while ( isdigit(*cur) ) cur++;
      let digits := cur.takeWhile isdigit
      let cur1 := cur.dropWhile isdigit
      if digits ≠ [] then
        -- *cur = 0; lua_pushnumber(L, atoi(begin)); count++;
        let stack1 := stack ++ [atoi digits]
        match cur1 with
        | [] => stack1
        | _ :: cur2 =>
          -- cur++; while ( *cur && ! isdigit(*cur) ) cur++;
          lz_version_loop fuel (cur2.dropWhile (fun c => !isdigit c)) stack1
      else
        lz_version_loop fuel (cur1.dropWhile (fun c => !isdigit c)) stack

/-- Lines 51-74: the numbers `lz_version` returns for the version string
`version` (the value of `zlibVersion()`), in the order they are pushed. -/
def lz_version (version : List Char) : List Int :=
  lz_version_loop (version.length + 1) version []

/-- The maximal runs of consecutive decimal digits of a string, left to right
(the reading of section 4.4 of the design: "scanning consecutive digit runs,
ignoring non-digit separators"). -/
def digitRuns : List Char → List (List Char)
  | [] => []
  | c :: cs =>
    if isdigit c then
      match cs.head?.map isdigit, digitRuns cs with
      | some true, r :: rs => (c :: r) :: rs
      | _, rs => [c] :: rs
    else digitRuns cs

/-- The version components the design asks for: the value of every maximal
digit run. -/
def versionSpec (version : List Char) : List Int :=
  (digitRuns version).map (fun r => (decimalValue r : Int))

/-! ## Lua C API used by `lz_filter_impl` -/

/-- The `lua_isstring` of the C API: true for strings and for numbers. -/
def lua_isstring (v : LuaValue) : Bool :=
  match v with
  | .string _ => true
  | .number _ => true
  | _ => false

/-- The `lua_tolstring` of the C API: the bytes of a string, the decimal
rendering of a number, NULL (`none`) for every other value. -/
def lua_tolstring (v : LuaValue) : Option String :=
  match v with
  | .string s => some s
  | .number n => some (toString n)
  | _ => none

/-- The `luaL_typename` of the auxiliary library. -/
def luaL_typename (v : LuaValue) : String :=
  match v with
  | .nil => "nil"
  | .boolean _ => "boolean"
  | .number _ => "number"
  | .string _ => "string"
  | .other t => t

/-- A Lua string read as a C string: the bytes before the first NUL. -/
def c_str (s : String) : String :=
  String.mk (s.data.takeWhile (fun c => c != Char.ofNat 0))

/-- The `luaL_checkoption(L, narg, def, lst)` of the auxiliary library with a
default: an absent or nil argument selects `dflt`, a value that is neither a
string nor a number raises a type error, a name that is not in `lst` raises
"invalid option"; otherwise the index of the name in `lst`. -/
def luaL_checkoption (args : List LuaValue) (narg : Nat) (dflt : String)
    (lst : List String) : Except LuaError Nat :=
  let name : Except LuaError String :=
    match args.get? (narg - 1) with
    | none => .ok dflt
    | some .nil => .ok dflt
    | some v =>
      match lua_tolstring v with
      | some s => .ok (c_str s)
      | none => .error (.arg narg ("string expected, got " ++ luaL_typename v))
  match name with
  | .error err => .error err
  | .ok n =>
    if lst.indexOf n < lst.length then .ok (lst.indexOf n)
    else .error (.arg narg ("invalid option '" ++ n ++ "'"))

/-! ## The session -/

/-- The zlib entry points a session is built on.  `init` is `deflateInit`
(argument: level) or `inflateInit2` (argument: window bits), `end_` is
`deflateEnd` or `inflateEnd`; both return a status and the stream as they leave
it.  `filter` is `deflate` or `inflate`, called with the stream and the flush
mode on an output window of `LUAL_BUFFERSIZE` bytes: it returns its status, the
bytes it wrote to the window and the stream as it leaves it (input cursor
advanced, counters updated).  `avail_out` after the call is `LUAL_BUFFERSIZE`
minus the number of bytes written. -/
structure Codec (σ : Type) where
  init : Int → ZStream σ → Int × ZStream σ
  filter : ZStream σ → Int → Int × String × ZStream σ
  end_ : ZStream σ → Int × ZStream σ

/-- The state a feed closure works on.  `strm` is the userdata block holding
the `z_stream`; `armed` tells whether that userdata carries the metatable with
`__gc`; `handle` tells whether upvalue 1 still is the userdata (`false`: nil,
the session is closed); `remainder` is upvalue 2, nil (`none`) or a string. -/
structure Session (σ : Type) where
  strm : ZStream σ
  armed : Bool
  handle : Bool
  remainder : Option String
  deriving DecidableEq, Repr

/-- What a call did to zlib, in order: a `step` is one call of the filter
function, recorded with the input cursor and the flush mode it was given and
the status it returned; a `teardown` is one call of the end function with the
status it returned. -/
inductive Event where
  | step (next_in : Option String) (flush : Int) (status : Int)
  | teardown (status : Int)
  deriving DecidableEq, Repr

/-- How a call of a Lua C function ends: it returns values, it raises an
error, or (`running`) its loop is still going when the fuel is used up. -/
inductive Outcome where
  | returned (values : List LuaValue)
  | raised (err : LuaError)
  | running
  deriving DecidableEq, Repr

/-- The values a call hands back to its caller: none unless it returned. -/
def Outcome.values (o : Outcome) : List LuaValue :=
  match o with
  | .returned vs => vs
  | _ => []

/-- A feed call: its outcome, the session it leaves and the zlib calls it
made. -/
structure CallResult (σ : Type) where
  outcome : Outcome
  sess : Session σ
  log : List Event
  deriving DecidableEq, Repr

/-- Lines 122-137: the flush mode, or the error `luaL_checkoption` raises. -/
def lz_filter_flush (isDeflate : Bool) (args : List LuaValue) : Except LuaError Int :=
  if isDeflate then
    match luaL_checkoption args 2 "none" ["none", "sync", "full", "finish"] with
    | .error err => .error err
    | .ok i =>
      -- if ( flush ) flush++;
      let flush : Int := if i ≠ 0 then (i : Int) + 1 else (i : Int)
      -- lua_gettop(L) == 0 || lua_isnil(L, 1)
      if args.length = 0 ∨ args.head? = some LuaValue.nil then .ok Z_FINISH
      else .ok flush
  else .ok Z_NO_FLUSH

/-- Lines 152-162: the value of `lua_tolstring(L, -1, &avail_in)`.  The stack
is listed from the top down, so index -1 is the head and index -2 the element
after it; `lua_gettop` is the length.  On an empty stack index -1 does not
designate an argument (it falls on the slot of the running function), which is
not a string: NULL. -/
def lz_filter_input (args : List LuaValue) (remainder : Option String) : Option String :=
  let st0 : List LuaValue := args.reverse
  -- if ( lua_gettop(L) > 1 ) lua_pushvalue(L, 1);
  let st1 : List LuaValue :=
    match args with
    | a :: _ :: _ => a :: st0
    | _ => st0
  -- if ( lua_isstring(L, lua_upvalueindex(2)) ) ...
  let st2 : List LuaValue :=
    match remainder with
    | none => st1
    | some r =>
      -- lua_pushvalue(L, lua_upvalueindex(2));
      match st1 with
      | [] => [LuaValue.string r]
      | a :: rest =>
        -- lua_gettop(L) > 1 && lua_isstring(L, -2): lua_concat(L, 2)
        if lua_isstring a then
          LuaValue.string ((lua_tolstring a).getD "" ++ r) :: rest
        else LuaValue.string r :: a :: rest
  match st2 with
  | [] => none
  | top :: _ => lua_tolstring top

/-- How the do-while loop of lines 173-185 ends. -/
inductive LoopResult (σ : Type) where
  | done (result : Int) (strm : ZStream σ) (buff : String) (log : List Event)
  | raised (err : LuaError) (strm : ZStream σ) (log : List Event)
  | running (strm : ZStream σ) (log : List Event)

/-- Lines 173-185.  `buff` is the content of the `luaL_Buffer`, `log` the zlib
calls made so far; one unit of fuel is one iteration. -/
def lz_filter_loop {σ : Type} (e : Env) (c : Codec σ) (flush : Int) :
    Nat → ZStream σ → String → List Event → LoopResult σ
  | 0, strm, _, log => .running strm log
  | fuel + 1, strm, buff, log =>
    -- result = filter(stream, flush);
    let r := c.filter strm flush
    let result := r.1
    let written := String.mk (r.2.1.data.take e.LUAL_BUFFERSIZE)
    let strm1 := r.2.2
    let log1 := log ++ [Event.step strm.next_in flush result]
    -- if ( Z_BUF_ERROR != result ) lz_assert(L, result, stream, __FILE__, __LINE__);
    match (if result ≠ Z_BUF_ERROR then lz_assert e result strm1 e.file 182 else .ok result) with
    | .error err => .raised err strm1 log1
    | .ok _ =>
      -- luaL_addsize(&buff, LUAL_BUFFERSIZE - stream->avail_out);
      let buff1 := buff ++ written
      -- while ( stream->avail_out == 0 )
      if written.length = e.LUAL_BUFFERSIZE then lz_filter_loop e c flush fuel strm1 buff1 log1
      else .done result strm1 buff1 log1

/-- The zlib calls a loop result carries. -/
def LoopResult.log {σ : Type} (r : LoopResult σ) : List Event :=
  match r with
  | .done _ _ _ log => log
  | .raised _ _ log => log
  | .running _ log => log

/-- Lines 187-215: what follows the loop.  An error raised inside the loop
leaves the function at once; so does, in this model, a loop that is still
running. -/
def lz_filter_epilogue {σ : Type} (e : Env) (c : Codec σ) (sess : Session σ)
    (r : LoopResult σ) : CallResult σ :=
  match r with
  | .raised err strm1 log => ⟨.raised err, { sess with strm := strm1 }, log⟩
  | .running strm1 log => ⟨.running, { sess with strm := strm1 }, log⟩
  | .done result strm1 buff log =>
    -- if ( NULL != stream->next_in ) ... lua_replace(L, lua_upvalueindex(2));
    let rem1 : Option String :=
      match strm1.next_in with
      | some s => some s
      | none => sess.remainder
    if result = Z_STREAM_END then
      -- the metatable and upvalue 1 are cleared, then end(stream) is called
      let t := c.end_ strm1
      let sess1 : Session σ :=
        { strm := t.2, armed := false, handle := false, remainder := rem1 }
      match lz_assert e t.1 t.2 e.file 207 with
      | .error err => ⟨.raised err, sess1, log ++ [Event.teardown t.1]⟩
      | .ok _ =>
        ⟨.returned [.string buff, .boolean true, .number t.2.total_in,
            .number t.2.total_out], sess1, log ++ [Event.teardown t.1]⟩
    else
      ⟨.returned [.string buff, .boolean false, .number strm1.total_in,
          .number strm1.total_out],
        { sess with strm := strm1, remainder := rem1 }, log⟩

/-- Lines 121-216.  `isDeflate` is the test `filter == deflate`.  `fuel`
bounds the iterations of the do-while loop. -/
def lz_filter_impl {σ : Type} (e : Env) (c : Codec σ) (isDeflate : Bool) (name : String)
    (fuel : Nat) (sess : Session σ) (args : List LuaValue) : CallResult σ :=
  match lz_filter_flush isDeflate args with
  | .error err => ⟨.raised err, sess, []⟩
  | .ok flush =>
    if sess.handle = false then
      -- stream == NULL
      if (args.head?.map lua_isstring) = some true then
        ⟨.raised (.msg ("IllegalState: calling " ++ name
          ++ " function when stream was previously closed")), sess, []⟩
      else ⟨.returned [.string "", .boolean true], sess, []⟩
    else
      -- stream->next_in = lua_tolstring(L, -1, &avail_in); stream->avail_in = avail_in;
      let strm0 : ZStream σ := { sess.strm with next_in := lz_filter_input args sess.remainder }
      if strm0.avail_in = 0 ∧ flush = 0 then
        ⟨.returned [.string "", .boolean false, .number strm0.total_in, .number strm0.total_out],
          { sess with strm := strm0 }, []⟩
      else
        lz_filter_epilogue e c { sess with strm := strm0 }
          (lz_filter_loop e c flush fuel strm0 "" [])

/-- Lines 246-248. -/
def lz_deflate {σ : Type} (e : Env) (c : Codec σ) (fuel : Nat) (sess : Session σ)
    (args : List LuaValue) : CallResult σ :=
  lz_filter_impl e c true "deflate" fuel sess args

/-- Lines 292-294. -/
def lz_inflate {σ : Type} (e : Env) (c : Codec σ) (fuel : Nat) (sess : Session σ)
    (args : List LuaValue) : CallResult σ :=
  lz_filter_impl e c false "inflate" fuel sess args

/-! ## Creation and finalization -/

/-- What a constructor leaves behind: the feed closure with its two upvalues,
or, when `lz_assert` raised, only the userdata block, with the flag telling
whether it carries the `__gc` metatable. -/
inductive Created (σ : Type) where
  | closure (sess : Session σ)
  | failed (err : LuaError) (strm : ZStream σ) (armed : Bool)

/-- Lines 227-244.  `level` is the value of `luaL_optint(L, 1,
Z_DEFAULT_COMPRESSION)` and `mem` the fresh userdata block.  The metatable is
set after `lz_assert` has returned, and upvalue 2 starts as nil. -/
def lz_deflate_new {σ : Type} (e : Env) (c : Codec σ) (level : Int) (mem : ZStream σ) :
    Created σ :=
  let r := c.init level mem
  match lz_assert e r.1 r.2 e.file 235 with
  | .error err => .failed err r.2 false
  | .ok _ => .closure { strm := r.2, armed := true, handle := true, remainder := none }

/-- Lines 269-290.  `window_size` is the number given, or `MAX_WBITS + 32`;
the input cursor is zeroed before `inflateInit2`. -/
def lz_inflate_new {σ : Type} (e : Env) (c : Codec σ) (window_size : Int) (mem : ZStream σ) :
    Created σ :=
  let r := c.init window_size { mem with next_in := none }
  match lz_assert e r.1 r.2 e.file 281 with
  | .error err => .failed err r.2 false
  | .ok _ => .closure { strm := r.2, armed := true, handle := true, remainder := none }

/-- Lines 250-257, the `__gc` handler of a compressor userdata: `deflateEnd`
is called and its status ignored. -/
def lz_deflate_delete {σ : Type} (c : Codec σ) (strm : ZStream σ) : List Event :=
  [Event.teardown (c.end_ strm).1]

/-- Lines 296-303, the `__gc` handler of a decompressor userdata: `inflateEnd`
is called and its status ignored. -/
def lz_inflate_delete {σ : Type} (c : Codec σ) (strm : ZStream σ) : List Event :=
  [Event.teardown (c.end_ strm).1]

/-- Collection of the userdata block by the Lua collector: the `__gc` handler
of its metatable runs, once, exactly when the block carries the metatable at
that time. -/
def collect {σ : Type} (c : Codec σ) (isDeflate : Bool) (armed : Bool) (strm : ZStream σ) :
    List Event :=
  if armed then (if isDeflate then lz_deflate_delete c strm else lz_inflate_delete c strm)
  else []

/-- A sequence of feed calls on one session, each with its arguments and the
fuel of its loop.  A call that raises is followed by the next one (the caller
may catch the error); a call that is still running ends the sequence, flagged
by `false`. -/
def feedAll {σ : Type} (e : Env) (c : Codec σ) (isDeflate : Bool) (name : String) :
    List (Nat × List LuaValue) → Session σ → Bool × Session σ × List Event
  | [], s => (true, s, [])
  | call :: rest, s =>
    let r := lz_filter_impl e c isDeflate name call.1 s call.2
    match r.outcome with
    | .running => (false, r.sess, r.log)
    | _ =>
      let t := feedAll e c isDeflate name rest r.sess
      (t.1, t.2.1, r.log ++ t.2.2)

/-- The zlib calls of a whole session: creation, the feed calls, then the
collection of the userdata block (which a call that never returns keeps
alive). -/
def lifetime {σ : Type} (e : Env) (c : Codec σ) (isDeflate : Bool) (name : String)
    (created : Created σ) (calls : List (Nat × List LuaValue)) : List Event :=
  match created with
  | .failed _ strm armed => collect c isDeflate armed strm
  | .closure s =>
    let t := feedAll e c isDeflate name calls s
    if t.1 then t.2.2 ++ collect c isDeflate t.2.1.armed t.2.1.strm else t.2.2

/-- Number of calls of the end function in a log. -/
def teardowns (log : List Event) : Nat :=
  log.countP (fun ev => match ev with
    | .teardown _ => true
    | .step _ _ _ => false)

/-- The statuses the filter function returned in a log, in order. -/
def stepStatuses (log : List Event) : List Int :=
  log.filterMap (fun ev => match ev with
    | .step _ _ st => some st
    | .teardown _ => none)

/-- The statuses the end function returned in a log, in order. -/
def teardownStatuses (log : List Event) : List Int :=
  log.filterMap (fun ev => match ev with
    | .teardown st => some st
    | .step _ _ _ => none)

/-- The statuses the loop accepts from the filter function. -/
def goodStep (st : Int) : Prop := st = Z_OK ∨ st = Z_STREAM_END ∨ st = Z_BUF_ERROR

/-- The contract of zlib.h for `deflate` and `inflate`: a call "stops when the
input buffer becomes empty or the output buffer becomes full".  So a step that
returns an accepted status other than `Z_STREAM_END` with room left in the
output window has used up its input: `avail_in` is 0 afterwards. -/
def usesUpInput {σ : Type} (e : Env) (c : Codec σ) : Prop :=
  ∀ (z : ZStream σ) (flush : Int),
    goodStep (c.filter z flush).1 → (c.filter z flush).1 ≠ Z_STREAM_END →
    (String.mk ((c.filter z flush).2.1.data.take e.LUAL_BUFFERSIZE)).length
      ≠ e.LUAL_BUFFERSIZE →
    (c.filter z flush).2.2.avail_in = 0

/-- A small environment: an output window of four bytes. -/
def demoEnv : Env :=
  { LUAL_BUFFERSIZE := 4, file := "zlib.c", ZLIB_VERSION := "1.2.11", zlibVersion := "1.2.11" }

/-- A "stored" codec: a step copies up to four input bytes to the output and
reports `Z_STREAM_END` once the input is used up under `Z_FINISH`; the private
state counts the steps. -/
def storeCodec : Codec Nat where
  init := fun _ z => (Z_OK, { z with total_in := 0, total_out := 0, msg := none, state := 0 })
  filter := fun z flush =>
    let inp := (z.next_in.getD "").data
    let status := if inp.length ≤ 4 ∧ flush = Z_FINISH then Z_STREAM_END else Z_OK
    (status, String.mk (inp.take 4),
      { z with next_in := z.next_in.map (fun _ => String.mk (inp.drop 4)),
               total_in := z.total_in + (inp.take 4).length,
               total_out := z.total_out + (inp.take 4).length,
               state := z.state + 1 })
  end_ := fun z => (Z_OK, z)

/-- A codec that takes one byte per step and leaves the rest of the input
unread, without filling the output window; it does not keep the contract
`usesUpInput`. -/
def lazyCodec : Codec Nat where
  init := fun _ z => (Z_OK, { z with total_in := 0, total_out := 0, msg := none, state := 0 })
  filter := fun z _ =>
    let inp := (z.next_in.getD "").data
    (Z_OK, String.mk (inp.take 1),
      { z with next_in := z.next_in.map (fun _ => String.mk (inp.drop 1)),
               total_in := z.total_in + (inp.take 1).length,
               total_out := z.total_out + (inp.take 1).length,
               state := z.state + 1 })
  end_ := fun z => (Z_OK, z)

/-- A codec whose every call reports the status held in its private state. -/
def failCodec : Codec Int where
  init := fun _ z => (z.state, z)
  filter := fun z _ => (z.state, "", z)
  end_ := fun z => (z.state, z)

/-- A blank userdata block. -/
def blank {σ : Type} (s : σ) : ZStream σ :=
  { next_in := none, total_in := 0, total_out := 0, msg := none, state := s }

/-- An open session over the blank block with the given upvalue 2. -/
def openSession {σ : Type} (s : σ) (remainder : Option String) : Session σ :=
  { strm := blank s, armed := true, handle := true, remainder := remainder }

/-- A closed session over the blank block. -/
def closedSession {σ : Type} (s : σ) : Session σ :=
  { strm := blank s, armed := false, handle := false, remainder := some "" }

/-! ## Evaluations -/

theorem lz_version_eval_plain : lz_version "1.2.11".toList = [1, 2, 11] := by decide

theorem lz_version_eval_motley : lz_version "1.2.11.1-motley".toList = [1, 2, 11, 1] := by
  decide

theorem lz_version_eval_edges :
    lz_version "v..12a007-".toList = [12, 7] ∧ versionSpec "v..12a007-".toList = [12, 7] ∧
    lz_version "".toList = [] ∧ lz_version "abc".toList = [] := by decide

theorem lz_deflate_eval_feed :
    lz_deflate demoEnv storeCodec 9 (openSession 0 none) [.string "hello "] =
      ⟨.returned [.string "hello ", .boolean false, .number 6, .number 6],
       { strm := { next_in := some "", total_in := 6, total_out := 6, msg := none, state := 2 },
         armed := true, handle := true, remainder := some "" },
       [.step (some "hello ") 0 0, .step (some "o ") 0 0]⟩ := by decide

theorem lz_deflate_eval_no_argument :
    (lz_deflate demoEnv storeCodec 9 (openSession 0 none) []).outcome =
      .returned [.string "", .boolean true, .number 0, .number 0] := by decide

theorem lz_deflate_eval_bad_option :
    (lz_deflate demoEnv storeCodec 9 (closedSession 0) [.string "a", .string "bogus"]).outcome =
      .raised (.arg 2 "invalid option 'bogus'") := by decide

theorem lz_inflate_eval_buf_error :
    (lz_inflate demoEnv failCodec 9 (openSession Z_BUF_ERROR none) [.string "x"]).outcome =
      .returned [.string "", .boolean false, .number 0, .number 0] := by decide

/-! ## Theorems: `lz_assert` -/

theorem takeWhile_append_of_any {α : Type} (p : α → Bool) (l₁ l₂ : List α)
    (h : l₁.any (fun x => !p x) = true) :
    (l₁ ++ l₂).takeWhile p = l₁.takeWhile p := by
  induction l₁ with
  | nil => simp at h
  | cons a l ih =>
    by_cases hp : p a = true
    · have h2 : l.any (fun x => !p x) = true := by simpa [hp] using h
      simp [List.takeWhile_cons, hp, ih h2]
    · simp [List.takeWhile_cons, hp]

theorem errorTag_append (a b : String)
    (h : a.data.any (fun c => !(c != ':')) = true) :
    errorTag (a ++ b) = errorTag a := by
  unfold errorTag
  rw [String.data_append, takeWhile_append_of_any _ _ _ h]

/-- C8: `lz_assert` returns `Z_OK` and `Z_STREAM_END` unchanged and raises for
every other status, with a message whose tag depends on the status alone:
`Z_NEED_DICT` RequiresDictionary, `Z_STREAM_ERROR` InternalError,
`Z_DATA_ERROR` InvalidInput, `Z_MEM_ERROR` OutOfMemory, `Z_BUF_ERROR`
InternalError, `Z_VERSION_ERROR` IncompatibleLibrary; any other code takes the
fallback branch, whose message carries the raw code and the codec message. -/
theorem lz_assert_taxonomy {σ : Type} (e : Env) (stream : ZStream σ) (file : String)
    (line : Nat) (result : Int) :
    ((result = Z_OK ∨ result = Z_STREAM_END) →
      lz_assert e result stream file line = .ok result) ∧
    (¬ (result = Z_OK ∨ result = Z_STREAM_END) →
      ∃ m, lz_assert e result stream file line = .error (.msg m) ∧
        (result = Z_NEED_DICT → errorTag m = "RequiresDictionary") ∧
        (result = Z_STREAM_ERROR → errorTag m = "InternalError") ∧
        (result = Z_DATA_ERROR → errorTag m = "InvalidInput") ∧
        (result = Z_MEM_ERROR → errorTag m = "OutOfMemory") ∧
        (result = Z_BUF_ERROR → errorTag m = "InternalError") ∧
        (result = Z_VERSION_ERROR → errorTag m = "IncompatibleLibrary") ∧
        ((result ≠ Z_NEED_DICT ∧ result ≠ Z_STREAM_ERROR ∧ result ≠ Z_DATA_ERROR ∧
            result ≠ Z_MEM_ERROR ∧ result ≠ Z_BUF_ERROR ∧ result ≠ Z_VERSION_ERROR) →
          m = "ZLibError: unknown code " ++ toString result ++ " (" ++ fmt_s stream.msg
                ++ ") at " ++ file ++ " line " ++ toString line ∧
          errorTag m = "ZLibError")) := by
  constructor
  · intro h
    simp [lz_assert, h]
  · intro h
    unfold lz_assert
    rw [if_neg h]
    by_cases h1 : result = Z_NEED_DICT
    · subst h1
      rw [if_pos rfl]
      refine ⟨_, rfl, ?_, ?_, ?_, ?_, ?_, ?_, ?_⟩
      all_goals intro hc
      all_goals first
        | exact absurd hc (by decide)
        | (simp only [String.append_assoc]; rw [errorTag_append _ _ (by decide)]; decide)
    rw [if_neg h1]
    by_cases h2 : result = Z_STREAM_ERROR
    · subst h2
      rw [if_pos rfl]
      refine ⟨_, rfl, ?_, ?_, ?_, ?_, ?_, ?_, ?_⟩
      all_goals intro hc
      all_goals first
        | exact absurd hc (by decide)
        | (simp only [String.append_assoc]; rw [errorTag_append _ _ (by decide)]; decide)
    rw [if_neg h2]
    by_cases h3 : result = Z_DATA_ERROR
    · subst h3
      rw [if_pos rfl]
      refine ⟨_, rfl, ?_, ?_, ?_, ?_, ?_, ?_, ?_⟩
      all_goals intro hc
      all_goals first
        | exact absurd hc (by decide)
        | (simp only [String.append_assoc]; rw [errorTag_append _ _ (by decide)]; decide)
    rw [if_neg h3]
    by_cases h4 : result = Z_MEM_ERROR
    · subst h4
      rw [if_pos rfl]
      refine ⟨_, rfl, ?_, ?_, ?_, ?_, ?_, ?_, ?_⟩
      all_goals intro hc
      all_goals first
        | exact absurd hc (by decide)
        | (simp only [String.append_assoc]; rw [errorTag_append _ _ (by decide)]; decide)
    rw [if_neg h4]
    by_cases h5 : result = Z_BUF_ERROR
    · subst h5
      rw [if_pos rfl]
      refine ⟨_, rfl, ?_, ?_, ?_, ?_, ?_, ?_, ?_⟩
      all_goals intro hc
      all_goals first
        | exact absurd hc (by decide)
        | (simp only [String.append_assoc]; rw [errorTag_append _ _ (by decide)]; decide)
    rw [if_neg h5]
    by_cases h6 : result = Z_VERSION_ERROR
    · subst h6
      rw [if_pos rfl]
      refine ⟨_, rfl, ?_, ?_, ?_, ?_, ?_, ?_, ?_⟩
      all_goals intro hc
      all_goals first
        | exact absurd hc (by decide)
        | (simp only [String.append_assoc]; rw [errorTag_append _ _ (by decide)]; decide)
    rw [if_neg h6]
    refine ⟨_, rfl, fun hc => absurd hc h1, fun hc => absurd hc h2, fun hc => absurd hc h3,
      fun hc => absurd hc h4, fun hc => absurd hc h5, fun hc => absurd hc h6, fun _ => ⟨rfl, ?_⟩⟩
    simp only [String.append_assoc]
    rw [errorTag_append _ _ (by decide)]; decide

/-- Witness of `lz_assert_taxonomy` at `Z_ERRNO`, a code without a case of its
own, and a stream without message. -/
theorem lz_assert_taxonomy_witness :
    lz_assert demoEnv Z_ERRNO (blank 0) "zlib.c" 182 =
      .error (.msg "ZLibError: unknown code -1 ((null)) at zlib.c line 182") := by
  obtain ⟨m, hm, _, _, _, _, _, _, h⟩ :=
    (lz_assert_taxonomy demoEnv (blank 0) "zlib.c" 182 Z_ERRNO).2 (by decide)
  rw [hm, (h (by decide)).1]
  rfl

/-! ## Theorems: `lz_version` -/

theorem digitRuns_cons_digit (c : Char) (cs : List Char) (h : isdigit c = true) :
    digitRuns (c :: cs) =
      (c :: cs).takeWhile isdigit :: digitRuns ((c :: cs).dropWhile isdigit) := by
  induction cs generalizing c with
  | nil => simp [digitRuns, h]
  | cons d ds ih =>
    by_cases hd : isdigit d = true
    · have := ih d hd
      rw [digitRuns, if_pos h, this]
      simp [hd, h, List.takeWhile_cons, List.dropWhile_cons]
    · rw [digitRuns, if_pos h]
      simp [hd, h, List.takeWhile_cons, List.dropWhile_cons]

theorem digitRuns_cons_other (c : Char) (cs : List Char) (h : ¬ isdigit c = true) :
    digitRuns (c :: cs) = digitRuns cs := by
  rw [digitRuns, if_neg h]

theorem digitRuns_dropWhile (l : List Char) :
    digitRuns (l.dropWhile (fun c => !isdigit c)) = digitRuns l := by
  induction l with
  | nil => simp
  | cons c cs ih =>
    by_cases h : isdigit c = true
    · simp [List.dropWhile_cons, h]
    · simp [List.dropWhile_cons, h, ih, digitRuns_cons_other]

theorem isspace_of_isdigit (c : Char) (h : isdigit c = true) : isspace c = false := by
  unfold isspace
  unfold isdigit at h
  simp only [decide_eq_true_eq] at h
  simp only [decide_eq_false_iff_not]
  rintro (rfl | rfl | rfl | rfl | rfl | rfl) <;> revert h <;> decide

theorem wrapInt32_of_lt (n : Nat) (h : n < 2 ^ 31) : wrapInt32 (n : Int) = n := by
  unfold wrapInt32
  have h2 : ((n : Int) + 2 ^ 31) % 2 ^ 32 = (n : Int) + 2 ^ 31 := by
    apply Int.emod_eq_of_lt <;> omega
  omega

theorem atoi_digits (c : Char) (cs : List Char) (hall : ∀ x ∈ c :: cs, isdigit x = true)
    (hfit : decimalValue (c :: cs) < 2 ^ 31) :
    atoi (c :: cs) = (decimalValue (c :: cs) : Int) := by
  have hc : isdigit c = true := hall c (by simp)
  have htw : (c :: cs).takeWhile isdigit = c :: cs := by
    rw [List.takeWhile_eq_self_iff]; exact hall
  unfold atoi
  simp only [List.dropWhile_cons, isspace_of_isdigit c hc]
  split
  · rename_i heq
    simp at heq
    rw [heq.1] at hc
    exact absurd hc (by decide)
  · rename_i heq
    simp at heq
    rw [heq.1] at hc
    exact absurd hc (by decide)
  · simp only [Bool.false_eq_true, if_false] at *
    rw [htw]
    exact wrapInt32_of_lt _ hfit

theorem lz_version_loop_eq (fuel : Nat) : ∀ (cur : List Char) (stack : List Int),
    cur.length < fuel → (∀ r ∈ digitRuns cur, decimalValue r < 2 ^ 31) →
    lz_version_loop fuel cur stack = stack ++ versionSpec cur := by
  induction fuel with
  | zero => intro cur stack h; omega
  | succ fuel ih =>
    intro cur stack hlen hfit
    cases cur with
    | nil => simp [lz_version_loop, versionSpec, digitRuns]
    | cons c cs =>
      by_cases hc : isdigit c = true
      · have hruns := digitRuns_cons_digit c cs hc
        have htw : (c :: cs).takeWhile isdigit = c :: cs.takeWhile isdigit := by
          simp [List.takeWhile_cons, hc]
        have hall : ∀ x ∈ c :: cs.takeWhile isdigit, isdigit x = true := by
          intro x hx
          rw [← htw] at hx
          exact List.mem_takeWhile_imp hx
        have hval : atoi ((c :: cs).takeWhile isdigit)
            = (decimalValue ((c :: cs).takeWhile isdigit) : Int) := by
          rw [htw]
          apply atoi_digits c _ hall
          rw [← htw]
          exact hfit _ (by rw [hruns]; simp)
        have hdl : ((c :: cs).dropWhile isdigit).length ≤ cs.length := by
          simp only [List.dropWhile_cons, hc, if_true]
          exact (List.dropWhile_sublist _).length_le
        simp only [lz_version_loop]
        rw [if_pos (by rw [htw]; simp)]
        rw [hval]
        cases hd : (c :: cs).dropWhile isdigit with
        | nil =>
          rw [versionSpec, hruns, hd]
          simp [digitRuns]
        | cons x cur2 =>
          have hx : ¬ isdigit x = true := by
            have := List.head_dropWhile_not isdigit (c :: cs) (by rw [hd]; simp)
            simp only [hd, List.head_cons] at this
            simp [this]
          have hr2 : digitRuns ((c :: cs).dropWhile isdigit)
              = digitRuns (cur2.dropWhile (fun c => !isdigit c)) := by
            rw [hd, digitRuns_cons_other x cur2 hx, digitRuns_dropWhile]
          simp only []
          rw [ih]
          · simp [versionSpec, hruns, hr2]
          · rw [hd] at hdl
            have := (List.dropWhile_sublist (fun c => !isdigit c) (l := cur2)).length_le
            simp only [List.length_cons] at hdl hlen
            omega
          · intro r hr
            apply hfit r
            rw [hruns, hr2]
            exact List.mem_cons_of_mem _ hr
      · have htw : (c :: cs).takeWhile isdigit = [] := by
          simp [List.takeWhile_cons, hc]
        have hdw : (c :: cs).dropWhile isdigit = c :: cs := by
          simp [List.dropWhile_cons, hc]
        have hdn : (c :: cs).dropWhile (fun c => !isdigit c)
            = cs.dropWhile (fun c => !isdigit c) := by
          simp [List.dropWhile_cons, hc]
        simp only [lz_version_loop]
        rw [if_neg (by rw [htw]; simp), hdw, hdn, ih]
        · simp [versionSpec, digitRuns_cons_other c cs hc, digitRuns_dropWhile]
        · have := (List.dropWhile_sublist (fun c => !isdigit c) (l := cs)).length_le
          simp only [List.length_cons] at hlen
          omega
        · intro r hr
          apply hfit r
          rw [digitRuns_cons_other c cs hc]
          rw [digitRuns_dropWhile] at hr
          exact hr

/-- C9: for every version string whose digit runs each fit in an `int`,
`lz_version` returns exactly the values of the maximal runs of consecutive
decimal digits, in left-to-right order, one number per run and nothing for the
other characters. -/
theorem lz_version_digit_runs (version : List Char)
    (hfit : ∀ r ∈ digitRuns version, decimalValue r < 2 ^ 31) :
    lz_version version = (digitRuns version).map (fun r => (decimalValue r : Int)) := by
  have := lz_version_loop_eq (version.length + 1) version [] (by omega) hfit
  simpa [lz_version, versionSpec] using this

/-- Witness of `lz_version_digit_runs` at the two version strings the design
gives, "1.2.11.1-motley" and "1.2.11". -/
theorem lz_version_digit_runs_witness :
    (∀ r ∈ digitRuns "1.2.11.1-motley".toList, decimalValue r < 2 ^ 31) ∧
    digitRuns "1.2.11.1-motley".toList = [['1'], ['2'], ['1', '1'], ['1']] ∧
    lz_version "1.2.11.1-motley".toList = [1, 2, 11, 1] ∧
    lz_version "1.2.11".toList = [1, 2, 11] := by
  refine ⟨by decide, by decide, ?_, ?_⟩
  · rw [lz_version_digit_runs "1.2.11.1-motley".toList (by decide)]
    decide
  · rw [lz_version_digit_runs "1.2.11".toList (by decide)]
    decide

/-! ## Theorems: the streaming session -/

theorem lz_assert_ok {σ : Type} (e : Env) (st : Int) (z : ZStream σ) (f : String) (l : Nat)
    (h : st = Z_OK ∨ st = Z_STREAM_END) : lz_assert e st z f l = .ok st := by
  simp [lz_assert, h]

theorem lz_assert_error {σ : Type} (e : Env) (st : Int) (z : ZStream σ) (f : String) (l : Nat)
    (h : ¬ (st = Z_OK ∨ st = Z_STREAM_END)) : ∃ m, lz_assert e st z f l = .error (.msg m) := by
  unfold lz_assert
  rw [if_neg h]
  repeat' split
  all_goals exact ⟨_, rfl⟩

theorem loop_check_ok {σ : Type} (e : Env) (st : Int) (z : ZStream σ) (h : goodStep st) :
    (if st ≠ Z_BUF_ERROR then lz_assert e st z e.file 182 else .ok st) = .ok st := by
  by_cases hb : st = Z_BUF_ERROR
  · simp [hb]
  · rw [if_pos hb]
    rcases h with h | h | h
    · exact lz_assert_ok e st z _ _ (Or.inl h)
    · exact lz_assert_ok e st z _ _ (Or.inr h)
    · exact absurd h hb

theorem loop_check_error {σ : Type} (e : Env) (st : Int) (z : ZStream σ) (h : ¬ goodStep st) :
    ∃ m, (if st ≠ Z_BUF_ERROR then lz_assert e st z e.file 182 else .ok st)
      = .error (.msg m) := by
  have hb : st ≠ Z_BUF_ERROR := fun hb => h (Or.inr (Or.inr hb))
  rw [if_pos hb]
  exact lz_assert_error e st z _ _ (fun hh => h (hh.elim Or.inl (fun x => Or.inr (Or.inl x))))

/-- The loop only appends filter steps, all with the flush mode of the call,
and the first of them is given the input cursor the loop starts from. -/
theorem lz_filter_loop_log {σ : Type} (e : Env) (c : Codec σ) (flush : Int) (fuel : Nat) :
    ∀ (strm : ZStream σ) (buff : String) (log : List Event),
    ∃ new, (lz_filter_loop e c flush fuel strm buff log).log = log ++ new ∧
      (∀ ev ∈ new, ∃ inp st, ev = Event.step inp flush st) ∧
      (0 < fuel → ∃ st, new.head? = some (Event.step strm.next_in flush st)) := by
  induction fuel with
  | zero =>
    intro strm buff log
    exact ⟨[], by simp [lz_filter_loop, LoopResult.log], by simp, by simp⟩
  | succ fuel ih =>
    intro strm buff log
    simp only [lz_filter_loop]
    split
    · refine ⟨[Event.step strm.next_in flush (c.filter strm flush).1], rfl, ?_, ?_⟩
      · intro ev hev
        simp only [List.mem_singleton] at hev
        exact ⟨_, _, hev⟩
      · intro _
        exact ⟨_, rfl⟩
    · split
      · obtain ⟨new, h1, h2, _⟩ := ih (c.filter strm flush).2.2
          (buff ++ String.mk ((c.filter strm flush).2.1.data.take e.LUAL_BUFFERSIZE))
          (log ++ [Event.step strm.next_in flush (c.filter strm flush).1])
        refine ⟨Event.step strm.next_in flush (c.filter strm flush).1 :: new, ?_, ?_, ?_⟩
        · rw [h1]; simp
        · intro ev hev
          rcases List.mem_cons.mp hev with h | h
          · exact ⟨_, _, h⟩
          · exact h2 ev h
        · intro _
          exact ⟨_, rfl⟩
      · refine ⟨[Event.step strm.next_in flush (c.filter strm flush).1], rfl, ?_, ?_⟩
        · intro ev hev
          simp only [List.mem_singleton] at hev
          exact ⟨_, _, hev⟩
        · intro _
          exact ⟨_, rfl⟩

theorem stepStatuses_cons_step (inp : Option String) (fl st : Int) (l : List Event) :
    stepStatuses (Event.step inp fl st :: l) = st :: stepStatuses l := by
  simp [stepStatuses]

/-- The statuses of the steps of a loop: the loop raises exactly at the first
status that is not accepted, which then is the last step; a loop that leaves
normally leaves with the status of its last step. -/
theorem lz_filter_loop_statuses {σ : Type} (e : Env) (c : Codec σ) (flush : Int) (fuel : Nat) :
    ∀ (strm : ZStream σ) (buff : String) (log : List Event),
    ∃ new, (lz_filter_loop e c flush fuel strm buff log).log = log ++ new ∧
      (∀ result s b l, lz_filter_loop e c flush fuel strm buff log = .done result s b l →
        (∀ st ∈ stepStatuses new, goodStep st) ∧ (stepStatuses new).getLast? = some result) ∧
      (∀ err s l, lz_filter_loop e c flush fuel strm buff log = .raised err s l →
        (∃ m, err = .msg m) ∧ ∃ st, (stepStatuses new).getLast? = some st ∧ ¬ goodStep st) ∧
      (∀ s l, lz_filter_loop e c flush fuel strm buff log = .running s l →
        ∀ st ∈ stepStatuses new, goodStep st) := by
  induction fuel with
  | zero =>
    intro strm buff log
    refine ⟨[], by simp [lz_filter_loop, LoopResult.log], ?_, ?_, ?_⟩
    · intro result s b l h; simp [lz_filter_loop] at h
    · intro err s l h; simp [lz_filter_loop] at h
    · intro s l _; simp [stepStatuses]
  | succ fuel ih =>
    intro strm buff log
    by_cases hg : goodStep (c.filter strm flush).1
    · simp only [lz_filter_loop, loop_check_ok e _ _ hg]
      split
      · obtain ⟨new, h1, h2, h3, h4⟩ := ih (c.filter strm flush).2.2
          (buff ++ String.mk ((c.filter strm flush).2.1.data.take e.LUAL_BUFFERSIZE))
          (log ++ [Event.step strm.next_in flush (c.filter strm flush).1])
        refine ⟨Event.step strm.next_in flush (c.filter strm flush).1 :: new, ?_, ?_, ?_, ?_⟩
        · rw [h1]; simp
        · intro result s b l h
          obtain ⟨ha, hb⟩ := h2 result s b l h
          rw [stepStatuses_cons_step]
          refine ⟨?_, ?_⟩
          · intro st hst
            rcases List.mem_cons.mp hst with h | h
            · rw [h]; exact hg
            · exact ha st h
          · cases hn : stepStatuses new with
            | nil => rw [hn] at hb; simp at hb
            | cons a t => rw [hn] at hb; rw [List.getLast?_cons_cons]; exact hb
        · intro err s l h
          obtain ⟨ha, st, hb, hc⟩ := h3 err s l h
          rw [stepStatuses_cons_step]
          refine ⟨ha, st, ?_, hc⟩
          cases hn : stepStatuses new with
          | nil => rw [hn] at hb; simp at hb
          | cons a t => rw [hn] at hb; rw [List.getLast?_cons_cons]; exact hb
        · intro s l h
          rw [stepStatuses_cons_step]
          intro st hst
          rcases List.mem_cons.mp hst with h' | h'
          · rw [h']; exact hg
          · exact h4 s l h st h'
      · refine ⟨[Event.step strm.next_in flush (c.filter strm flush).1], rfl, ?_, ?_, ?_⟩
        · intro result s b l h
          simp only [LoopResult.done.injEq] at h
          rw [← h.1]
          simp [stepStatuses, hg]
        · intro err s l h; simp at h
        · intro s l h; simp at h
    · obtain ⟨m, hm⟩ := loop_check_error e _ (c.filter strm flush).2.2 hg
      simp only [lz_filter_loop, hm]
      refine ⟨[Event.step strm.next_in flush (c.filter strm flush).1], rfl, ?_, ?_, ?_⟩
      · intro result s b l h; simp at h
      · intro err s l h
        simp only [LoopResult.raised.injEq] at h
        exact ⟨⟨m, h.1.symm⟩, _, by simp [stepStatuses], hg⟩
      · intro s l h; simp at h

theorem stepStatuses_append_teardown (l : List Event) (st : Int) :
    stepStatuses (l ++ [Event.teardown st]) = stepStatuses l := by
  simp [stepStatuses]

theorem lz_filter_impl_argerror {σ : Type} (e : Env) (c : Codec σ) (isDeflate : Bool)
    (name : String) (fuel : Nat) (sess : Session σ) (args : List LuaValue) (err : LuaError)
    (h : lz_filter_flush isDeflate args = .error err) :
    lz_filter_impl e c isDeflate name fuel sess args = ⟨.raised err, sess, []⟩ := by
  simp [lz_filter_impl, h]

theorem lz_filter_impl_closed {σ : Type} (e : Env) (c : Codec σ) (isDeflate : Bool)
    (name : String) (fuel : Nat) (sess : Session σ) (args : List LuaValue) (flush : Int)
    (hclosed : sess.handle = false)
    (h : lz_filter_flush isDeflate args = .ok flush) :
    lz_filter_impl e c isDeflate name fuel sess args =
      if (args.head?.map lua_isstring) = some true then
        ⟨.raised (.msg ("IllegalState: calling " ++ name
          ++ " function when stream was previously closed")), sess, []⟩
      else ⟨.returned [.string "", .boolean true], sess, []⟩ := by
  simp [lz_filter_impl, h, hclosed]

theorem lz_filter_impl_noop {σ : Type} (e : Env) (c : Codec σ) (isDeflate : Bool)
    (name : String) (fuel : Nat) (sess : Session σ) (args : List LuaValue) (flush : Int)
    (hopen : sess.handle = true)
    (h : lz_filter_flush isDeflate args = .ok flush)
    (hn : ({ sess.strm with next_in := lz_filter_input args sess.remainder }
            : ZStream σ).avail_in = 0 ∧ flush = 0) :
    lz_filter_impl e c isDeflate name fuel sess args =
      ⟨.returned [.string "", .boolean false, .number sess.strm.total_in,
          .number sess.strm.total_out],
        { sess with strm := { sess.strm with next_in := lz_filter_input args sess.remainder } },
        []⟩ := by
  simp only [lz_filter_impl, h, hopen]
  rw [if_neg (by simp), if_pos hn]

theorem lz_filter_impl_loop {σ : Type} (e : Env) (c : Codec σ) (isDeflate : Bool)
    (name : String) (fuel : Nat) (sess : Session σ) (args : List LuaValue) (flush : Int)
    (hopen : sess.handle = true)
    (h : lz_filter_flush isDeflate args = .ok flush)
    (hn : ¬ (({ sess.strm with next_in := lz_filter_input args sess.remainder }
            : ZStream σ).avail_in = 0 ∧ flush = 0)) :
    lz_filter_impl e c isDeflate name fuel sess args =
      lz_filter_epilogue e c
        { sess with strm := { sess.strm with next_in := lz_filter_input args sess.remainder } }
        (lz_filter_loop e c flush fuel
          { sess.strm with next_in := lz_filter_input args sess.remainder } "" []) := by
  simp only [lz_filter_impl, h, hopen]
  rw [if_neg (by simp), if_neg hn]

/-- The effective input of lines 152-162 in closed form: a first argument that
is a string or a number comes first and the stored remainder is appended to it;
any other first argument, or none, leaves the stored remainder alone. -/
theorem lz_filter_input_eq (args : List LuaValue) (remainder : Option String) :
    lz_filter_input args remainder =
      match args.head? with
      | some a =>
        if lua_isstring a then some ((lua_tolstring a).getD "" ++ remainder.getD "")
        else remainder
      | none => remainder := by
  have key : ∀ (a : LuaValue) (rest : List LuaValue),
      (match (match remainder with
        | none => a :: rest
        | some r =>
          match a :: rest with
          | [] => [LuaValue.string r]
          | a :: rest =>
            if lua_isstring a then
              LuaValue.string ((lua_tolstring a).getD "" ++ r) :: rest
            else LuaValue.string r :: a :: rest) with
        | [] => none
        | top :: _ => lua_tolstring top) =
      if lua_isstring a then some ((lua_tolstring a).getD "" ++ remainder.getD "")
      else remainder := by
    intro a rest
    cases remainder with
    | none => cases a <;> simp [lua_isstring, lua_tolstring]
    | some r => cases a <;> simp [lua_isstring, lua_tolstring]
  cases args with
  | nil => cases remainder <;> simp [lz_filter_input, lua_tolstring]
  | cons a t =>
    cases t with
    | nil => simpa [lz_filter_input] using key a []
    | cons b u => simpa [lz_filter_input] using key a ((a :: b :: u).reverse)

theorem lz_filter_flush_inflate (args : List LuaValue) :
    lz_filter_flush false args = .ok Z_NO_FLUSH := by
  simp [lz_filter_flush]

/-- The flush mode of a compressor call is `Z_NO_FLUSH` when a first argument
other than nil is supplied and argument 2 is absent, nil or the name "none". -/
theorem lz_filter_flush_none (a : LuaValue) (rest : List LuaValue) (ha : a ≠ LuaValue.nil)
    (h2 : rest.head? = none ∨ rest.head? = some LuaValue.nil ∨
      rest.head? = some (LuaValue.string "none")) :
    lz_filter_flush true (a :: rest) = .ok Z_NO_FLUSH := by
  have hget : (a :: rest).get? (2 - 1) = rest.head? := by
    cases rest <;> rfl
  have hco : luaL_checkoption (a :: rest) 2 "none" ["none", "sync", "full", "finish"]
      = .ok 0 := by
    unfold luaL_checkoption
    rw [hget]
    rcases h2 with h | h | h <;> rw [h] <;> rfl
  simp only [lz_filter_flush, hco, if_true]
  rw [if_neg]
  · rfl
  · simp [ha]

/-- C4: on an open session, when the effective input is empty and the flush
mode is `Z_NO_FLUSH` (always so for a decompressor), the feed call returns
exactly the empty string, false and the current counters, makes no zlib call,
and leaves zlib's private state, the counters, the message, the stored
remainder, the handle and the finalizer as they were; the only field written is
the input cursor, set to the empty effective input. -/
theorem feed_noop_on_empty_input {σ : Type} (e : Env) (c : Codec σ) (isDeflate : Bool)
    (name : String) (fuel : Nat) (sess : Session σ) (args : List LuaValue)
    (hopen : sess.handle = true)
    (hflush : isDeflate = false ∨ lz_filter_flush isDeflate args = .ok Z_NO_FLUSH)
    (hempty : lz_filter_input args sess.remainder = none ∨
      lz_filter_input args sess.remainder = some "") :
    lz_filter_impl e c isDeflate name fuel sess args =
      ⟨.returned [.string "", .boolean false, .number sess.strm.total_in,
          .number sess.strm.total_out],
        { sess with strm := { sess.strm with next_in := lz_filter_input args sess.remainder } },
        []⟩ ∧
    (lz_filter_impl e c isDeflate name fuel sess args).sess.strm.state = sess.strm.state ∧
    (lz_filter_impl e c isDeflate name fuel sess args).sess.strm.total_in
      = sess.strm.total_in ∧
    (lz_filter_impl e c isDeflate name fuel sess args).sess.strm.total_out
      = sess.strm.total_out ∧
    (lz_filter_impl e c isDeflate name fuel sess args).sess.strm.msg = sess.strm.msg ∧
    (lz_filter_impl e c isDeflate name fuel sess args).sess.remainder = sess.remainder ∧
    (lz_filter_impl e c isDeflate name fuel sess args).sess.handle = true ∧
    (lz_filter_impl e c isDeflate name fuel sess args).sess.armed = sess.armed := by
  have hf : lz_filter_flush isDeflate args = .ok Z_NO_FLUSH := by
    rcases hflush with h | h
    · rw [h]; exact lz_filter_flush_inflate args
    · exact h
  have hn : (({ sess.strm with next_in := lz_filter_input args sess.remainder }
            : ZStream σ).avail_in = 0 ∧ Z_NO_FLUSH = 0) := by
    refine ⟨?_, rfl⟩
    rcases hempty with h | h <;> simp [ZStream.avail_in, h]
  rw [lz_filter_impl_noop e c isDeflate name fuel sess args Z_NO_FLUSH hopen hf hn]
  simp [hopen]

/-- Witness of `feed_noop_on_empty_input`: an open compressor with an empty
remainder, fed the empty string with the flush option "none". -/
theorem feed_noop_on_empty_input_witness :
    (openSession 0 (some "")).handle = true ∧
    lz_filter_flush true [.string "", .string "none"] = .ok Z_NO_FLUSH ∧
    lz_filter_input [.string "", .string "none"] (openSession 0 (some "")).remainder
      = some "" ∧
    lz_filter_impl demoEnv storeCodec true "deflate" 9 (openSession 0 (some ""))
        [.string "", .string "none"] =
      ⟨.returned [.string "", .boolean false, .number 0, .number 0],
        { openSession 0 (some "") with strm := { blank 0 with next_in := some "" } }, []⟩ :=
  ⟨rfl, rfl, rfl,
    (feed_noop_on_empty_input demoEnv storeCodec true "deflate" 9 (openSession 0 (some ""))
      [.string "", .string "none"] rfl (Or.inr rfl) (Or.inr rfl)).1⟩

/-- A feed call on an open session that returns true as its second value
leaves the session closed. -/
theorem lz_filter_impl_true_closes {σ : Type} (e : Env) (c : Codec σ) (isDeflate : Bool)
    (name : String) (fuel : Nat) (sess : Session σ) (args : List LuaValue)
    (vals : List LuaValue)
    (hopen : sess.handle = true)
    (hret : (lz_filter_impl e c isDeflate name fuel sess args).outcome = .returned vals)
    (htrue : vals.get? 1 = some (.boolean true)) :
    (lz_filter_impl e c isDeflate name fuel sess args).sess.handle = false := by
  cases hf : lz_filter_flush isDeflate args with
  | error err =>
    rw [lz_filter_impl_argerror e c isDeflate name fuel sess args err hf] at hret
    simp at hret
  | ok flush =>
    by_cases hn : (({ sess.strm with next_in := lz_filter_input args sess.remainder }
            : ZStream σ).avail_in = 0 ∧ flush = 0)
    · rw [lz_filter_impl_noop e c isDeflate name fuel sess args flush hopen hf hn] at hret
      simp only [Outcome.returned.injEq] at hret
      rw [← hret] at htrue
      simp at htrue
    · rw [lz_filter_impl_loop e c isDeflate name fuel sess args flush hopen hf hn] at hret ⊢
      generalize lz_filter_loop e c flush fuel
          { sess.strm with next_in := lz_filter_input args sess.remainder } "" [] = L
          at hret ⊢
      cases L with
      | raised err s l => simp [lz_filter_epilogue] at hret
      | running s l => simp [lz_filter_epilogue] at hret
      | done result s b l =>
        by_cases hse : result = Z_STREAM_END
        · simp only [lz_filter_epilogue, hse, if_true]
          split <;> rfl
        · simp only [lz_filter_epilogue, hse, if_false, Outcome.returned.injEq] at hret
          rw [← hret] at htrue
          simp at htrue

/-- C2: a feed call on an open session that returns normally returns four
values; its boolean is true exactly when the last step of the call reported
`Z_STREAM_END`, and the session is closed afterwards exactly when the boolean
is true (so after the no-op return, which makes no step, it is still open). -/
theorem feed_finished_iff_stream_end {σ : Type} (e : Env) (c : Codec σ) (isDeflate : Bool)
    (name : String) (fuel : Nat) (sess : Session σ) (args : List LuaValue)
    (vals : List LuaValue)
    (hopen : sess.handle = true)
    (hret : (lz_filter_impl e c isDeflate name fuel sess args).outcome = .returned vals) :
    ∃ out fin tin tout, vals = [.string out, .boolean fin, .number tin, .number tout] ∧
      (fin = true ↔
        (stepStatuses (lz_filter_impl e c isDeflate name fuel sess args).log).getLast?
          = some Z_STREAM_END) ∧
      ((lz_filter_impl e c isDeflate name fuel sess args).sess.handle = false ↔ fin = true) := by
  cases hf : lz_filter_flush isDeflate args with
  | error err =>
    rw [lz_filter_impl_argerror e c isDeflate name fuel sess args err hf] at hret
    simp at hret
  | ok flush =>
    by_cases hn : (({ sess.strm with next_in := lz_filter_input args sess.remainder }
            : ZStream σ).avail_in = 0 ∧ flush = 0)
    · rw [lz_filter_impl_noop e c isDeflate name fuel sess args flush hopen hf hn] at hret ⊢
      simp only [Outcome.returned.injEq] at hret
      refine ⟨_, false, _, _, hret.symm, ?_, ?_⟩
      · simp [stepStatuses]
      · simp [hopen]
    · rw [lz_filter_impl_loop e c isDeflate name fuel sess args flush hopen hf hn] at hret ⊢
      obtain ⟨new, h1, h2, _, _⟩ := lz_filter_loop_statuses e c flush fuel
        { sess.strm with next_in := lz_filter_input args sess.remainder } "" []
      revert hret h1 h2
      cases lz_filter_loop e c flush fuel
          { sess.strm with next_in := lz_filter_input args sess.remainder } "" [] with
      | raised err s l => intro hret; simp [lz_filter_epilogue] at hret
      | running s l => intro hret; simp [lz_filter_epilogue] at hret
      | done result s b l =>
        intro hret h1 h2
        simp only [LoopResult.log, List.nil_append] at h1
        obtain ⟨_, hlast⟩ := h2 result s b l rfl
        rw [← h1] at hlast
        by_cases hse : result = Z_STREAM_END
        · simp only [lz_filter_epilogue, hse, if_true] at hret ⊢
          revert hret
          split
          · intro hret; simp at hret
          · intro hret
            simp only [Outcome.returned.injEq] at hret
            refine ⟨_, true, _, _, hret.symm, ?_, ?_⟩
            · simp [stepStatuses_append_teardown, hlast, hse]
            · simp
        · simp only [lz_filter_epilogue, hse, if_false] at hret ⊢
          simp only [Outcome.returned.injEq] at hret
          refine ⟨_, false, _, _, hret.symm, ?_, ?_⟩
          · simp [hlast, hse]
          · simp [hopen]

/-- Witness of `feed_finished_iff_stream_end`: "hello" fed to an open compressor
with the flush option "finish" takes two steps, the last one reporting
`Z_STREAM_END`. -/
theorem feed_finished_iff_stream_end_witness :
    (openSession 0 none).handle = true ∧
    (lz_filter_impl demoEnv storeCodec true "deflate" 9 (openSession 0 none)
        [.string "hello", .string "finish"]).outcome =
      .returned [.string "hello", .boolean true, .number 5, .number 5] ∧
    ∃ out fin tin tout,
      [LuaValue.string "hello", .boolean true, .number 5, .number 5]
        = [.string out, .boolean fin, .number tin, .number tout] ∧
      (fin = true ↔
        (stepStatuses (lz_filter_impl demoEnv storeCodec true "deflate" 9 (openSession 0 none)
          [.string "hello", .string "finish"]).log).getLast? = some Z_STREAM_END) ∧
      ((lz_filter_impl demoEnv storeCodec true "deflate" 9 (openSession 0 none)
          [.string "hello", .string "finish"]).sess.handle = false ↔ fin = true) :=
  ⟨rfl, by decide,
    feed_finished_iff_stream_end demoEnv storeCodec true "deflate" 9 (openSession 0 none)
      [.string "hello", .string "finish"] _ rfl (by decide)⟩

theorem lz_filter_impl_closed_state {σ : Type} (e : Env) (c : Codec σ) (isDeflate : Bool)
    (name : String) (fuel : Nat) (sess : Session σ) (args : List LuaValue)
    (hclosed : sess.handle = false) :
    (lz_filter_impl e c isDeflate name fuel sess args).sess = sess ∧
    (lz_filter_impl e c isDeflate name fuel sess args).log = [] ∧
    (lz_filter_impl e c isDeflate name fuel sess args).outcome ≠ .running := by
  cases hf : lz_filter_flush isDeflate args with
  | error err =>
    rw [lz_filter_impl_argerror e c isDeflate name fuel sess args err hf]
    simp
  | ok flush =>
    rw [lz_filter_impl_closed e c isDeflate name fuel sess args flush hclosed hf]
    split <;> simp

theorem luaL_checkoption_error (args : List LuaValue) (narg : Nat) (dflt : String)
    (lst : List String) (err : LuaError)
    (h : luaL_checkoption args narg dflt lst = .error err) : ∃ t, err = .arg narg t := by
  unfold luaL_checkoption at h
  have fin : ∀ n : String,
      (if lst.indexOf n < lst.length then (Except.ok (lst.indexOf n) : Except LuaError Nat)
        else .error (.arg narg ("invalid option '" ++ n ++ "'"))) = .error err →
      ∃ t, err = .arg narg t := by
    intro n hn
    split at hn
    · simp at hn
    · simp only [Except.error.injEq] at hn
      exact ⟨_, hn.symm⟩
  cases hv : args.get? (narg - 1) with
  | none => rw [hv] at h; exact fin _ h
  | some v =>
    rw [hv] at h
    cases v with
    | nil => exact fin _ h
    | boolean b =>
      simp only [lua_tolstring, Except.error.injEq] at h
      exact ⟨_, h.symm⟩
    | number n => exact fin _ h
    | string s => exact fin _ h
    | other t =>
      simp only [lua_tolstring, Except.error.injEq] at h
      exact ⟨_, h.symm⟩

theorem lz_filter_flush_error (isDeflate : Bool) (args : List LuaValue) (err : LuaError)
    (h : lz_filter_flush isDeflate args = .error err) : ∃ t, err = .arg 2 t := by
  unfold lz_filter_flush at h
  split at h
  · cases hc : luaL_checkoption args 2 "none" ["none", "sync", "full", "finish"] with
    | error err2 =>
      rw [hc] at h
      simp only [Except.error.injEq] at h
      rw [← h]
      exact luaL_checkoption_error _ _ _ _ _ hc
    | ok i =>
      rw [hc] at h
      simp only at h
      split at h <;> simp at h
  · simp at h

/-- C5 (counterexample): a compressor closed by a stream end, called with data
and an option name that is not in the list, raises the argument error of
`luaL_checkoption` for argument 2, not the IllegalState error. -/
theorem closed_feed_bad_option_raises_argument_error :
    (lz_deflate demoEnv storeCodec 9 (openSession 0 none)
        [.string "hello", .string "finish"]).sess.handle = false ∧
    lz_deflate demoEnv storeCodec 9
        (lz_deflate demoEnv storeCodec 9 (openSession 0 none)
          [.string "hello", .string "finish"]).sess [.string "more", .string "bogus"] =
      ⟨.raised (.arg 2 "invalid option 'bogus'"),
        (lz_deflate demoEnv storeCodec 9 (openSession 0 none)
          [.string "hello", .string "finish"]).sess, []⟩ ∧
    LuaError.arg 2 "invalid option 'bogus'" ≠
      LuaError.msg "IllegalState: calling deflate function when stream was previously closed" := by
  decide

/-- C5 (amended): on a closed session a feed call whose first argument is data
(a string or a number) and whose argument 2 passes the option check (it always
does on a decompressor) raises the IllegalState error, returns no value, makes
no zlib call and leaves the session as it was; a call whose argument 2 fails
the option check raises that argument error instead, with no value and no zlib
call; and whatever the arguments, a closed session raises a message error only
for a data first argument, and that error is the IllegalState one. -/
theorem closed_feed_illegal_state {σ : Type} (e : Env) (c : Codec σ) (isDeflate : Bool)
    (name : String) (fuel : Nat) (sess : Session σ) (args : List LuaValue) (flush : Int)
    (hclosed : sess.handle = false)
    (hdata : args.head?.map lua_isstring = some true)
    (hflush : lz_filter_flush isDeflate args = .ok flush) :
    lz_filter_impl e c isDeflate name fuel sess args =
      ⟨.raised (.msg ("IllegalState: calling " ++ name
          ++ " function when stream was previously closed")), sess, []⟩ ∧
    errorTag ("IllegalState: calling " ++ name
      ++ " function when stream was previously closed") = "IllegalState" ∧
    (lz_filter_impl e c isDeflate name fuel sess args).outcome.values = [] ∧
    (∀ (fuel2 : Nat) (args2 : List LuaValue) (err : LuaError),
      lz_filter_flush isDeflate args2 = .error err →
      lz_filter_impl e c isDeflate name fuel2 sess args2 = ⟨.raised err, sess, []⟩ ∧
      isDeflate = true ∧ ∃ t, err = .arg 2 t) ∧
    (∀ (fuel2 : Nat) (args2 : List LuaValue) (m : String),
      (lz_filter_impl e c isDeflate name fuel2 sess args2).outcome = .raised (.msg m) →
      args2.head?.map lua_isstring = some true ∧
      m = "IllegalState: calling " ++ name
          ++ " function when stream was previously closed") := by
  have h1 := lz_filter_impl_closed e c isDeflate name fuel sess args flush hclosed hflush
  rw [if_pos hdata] at h1
  refine ⟨h1, ?_, by rw [h1]; rfl, ?_, ?_⟩
  · rw [String.append_assoc, errorTag_append _ _ (by decide)]; decide
  · intro fuel2 args2 err herr
    refine ⟨lz_filter_impl_argerror e c isDeflate name fuel2 sess args2 err herr, ?_,
      lz_filter_flush_error isDeflate args2 err herr⟩
    cases isDeflate with
    | true => rfl
    | false => rw [lz_filter_flush_inflate] at herr; simp at herr
  · intro fuel2 args2 m hm
    cases hf : lz_filter_flush isDeflate args2 with
    | error err =>
      rw [lz_filter_impl_argerror e c isDeflate name fuel2 sess args2 err hf] at hm
      simp only [Outcome.raised.injEq] at hm
      subst hm
      obtain ⟨t, ht⟩ := lz_filter_flush_error isDeflate args2 _ hf
      simp at ht
    | ok flush2 =>
      rw [lz_filter_impl_closed e c isDeflate name fuel2 sess args2 flush2 hclosed hf] at hm
      by_cases hd : args2.head?.map lua_isstring = some true
      · rw [if_pos hd] at hm
        simp only [Outcome.raised.injEq, LuaError.msg.injEq] at hm
        exact ⟨hd, hm.symm⟩
      · rw [if_neg hd] at hm
        simp at hm

/-- Witness of `closed_feed_illegal_state`: a closed compressor fed "more". -/
theorem closed_feed_illegal_state_witness :
    (closedSession 0).handle = false ∧
    [LuaValue.string "more"].head?.map lua_isstring = some true ∧
    lz_filter_flush true [.string "more"] = .ok Z_NO_FLUSH ∧
    lz_filter_impl demoEnv storeCodec true "deflate" 9 (closedSession 0) [.string "more"] =
      ⟨.raised (.msg
        "IllegalState: calling deflate function when stream was previously closed"),
        closedSession 0, []⟩ :=
  ⟨rfl, rfl, rfl,
    (closed_feed_illegal_state demoEnv storeCodec true "deflate" 9 (closedSession 0)
      [.string "more"] Z_NO_FLUSH rfl rfl rfl).1⟩

theorem feedAll_closed {σ : Type} (e : Env) (c : Codec σ) (isDeflate : Bool) (name : String)
    (calls : List (Nat × List LuaValue)) (sess : Session σ) (hclosed : sess.handle = false) :
    feedAll e c isDeflate name calls sess = (true, sess, []) := by
  induction calls with
  | nil => rfl
  | cons call rest ih =>
    obtain ⟨h1, h2, h3⟩ :=
      lz_filter_impl_closed_state e c isDeflate name call.1 sess call.2 hclosed
    simp only [feedAll]
    rw [h1, h2, ih]
    rfl

/-- C6 (counterexample): a compressor that has just returned true with the
counters 5 and 5 answers the next call without data with two values only, the
empty string and true; the counters are not among them.  (With an option name
that is not in the list the call raises the argument error instead.) -/
theorem closed_feed_reports_no_counters :
    (lz_deflate demoEnv storeCodec 9 (openSession 0 none)
        [.string "hello", .string "finish"]).outcome =
      .returned [.string "hello", .boolean true, .number 5, .number 5] ∧
    (lz_deflate demoEnv storeCodec 9
        (lz_deflate demoEnv storeCodec 9 (openSession 0 none)
          [.string "hello", .string "finish"]).sess []).outcome =
      .returned [.string "", .boolean true] ∧
    (lz_deflate demoEnv storeCodec 9
        (lz_deflate demoEnv storeCodec 9 (openSession 0 none)
          [.string "hello", .string "finish"]).sess []).outcome ≠
      .returned [.string "", .boolean true, .number 5, .number 5] ∧
    (lz_deflate demoEnv storeCodec 9
        (lz_deflate demoEnv storeCodec 9 (openSession 0 none)
          [.string "hello", .string "finish"]).sess [.nil, .string "bogus"]).outcome =
      .raised (.arg 2 "invalid option 'bogus'") := by
  decide

/-- C6 (amended): once a feed call has returned true as its second value, every
later feed call without data (and, for a compressor, with an option in argument
2 that passes the check), after any calls in between, returns exactly two
values, the empty string and true, makes no zlib call and leaves the session as
it was; the counters are reported by calls on an open session only. -/
theorem closed_feed_without_data {σ : Type} (e : Env) (c : Codec σ) (isDeflate : Bool)
    (name : String) (fuel : Nat) (sess : Session σ) (args : List LuaValue)
    (vals : List LuaValue) (between : List (Nat × List LuaValue))
    (fuel2 : Nat) (args2 : List LuaValue) (flush2 : Int)
    (hret : (lz_filter_impl e c isDeflate name fuel sess args).outcome = .returned vals)
    (htrue : vals.get? 1 = some (.boolean true))
    (hnodata : args2.head?.map lua_isstring ≠ some true)
    (hflush2 : lz_filter_flush isDeflate args2 = .ok flush2) :
    lz_filter_impl e c isDeflate name fuel2
        (feedAll e c isDeflate name between
          (lz_filter_impl e c isDeflate name fuel sess args).sess).2.1 args2 =
      ⟨.returned [.string "", .boolean true],
        (lz_filter_impl e c isDeflate name fuel sess args).sess, []⟩ := by
  have hclosed : (lz_filter_impl e c isDeflate name fuel sess args).sess.handle = false := by
    cases ho : sess.handle with
    | true =>
      exact lz_filter_impl_true_closes e c isDeflate name fuel sess args vals ho hret htrue
    | false =>
      rw [(lz_filter_impl_closed_state e c isDeflate name fuel sess args ho).1]
      exact ho
  rw [feedAll_closed e c isDeflate name between _ hclosed]
  rw [lz_filter_impl_closed e c isDeflate name fuel2 _ args2 flush2 hclosed hflush2]
  rw [if_neg hnodata]

/-- Witness of `closed_feed_without_data`: the compressor of the
counterexample, called with nil after a refused call with data. -/
theorem closed_feed_without_data_witness :
    (lz_filter_impl demoEnv storeCodec true "deflate" 9 (openSession 0 none)
        [.string "hello", .string "finish"]).outcome =
      .returned [.string "hello", .boolean true, .number 5, .number 5] ∧
    [LuaValue.string "hello", .boolean true, .number 5, .number 5].get? 1
      = some (.boolean true) ∧
    [LuaValue.nil].head?.map lua_isstring ≠ some true ∧
    lz_filter_flush true [.nil] = .ok Z_FINISH ∧
    lz_filter_impl demoEnv storeCodec true "deflate" 3
        (feedAll demoEnv storeCodec true "deflate" [(9, [.string "more"])]
          (lz_filter_impl demoEnv storeCodec true "deflate" 9 (openSession 0 none)
            [.string "hello", .string "finish"]).sess).2.1 [.nil] =
      ⟨.returned [.string "", .boolean true],
        (lz_filter_impl demoEnv storeCodec true "deflate" 9 (openSession 0 none)
          [.string "hello", .string "finish"]).sess, []⟩ :=
  ⟨by decide, rfl, by decide, rfl,
    closed_feed_without_data demoEnv storeCodec true "deflate" 9 (openSession 0 none)
      [.string "hello", .string "finish"]
      [.string "hello", .boolean true, .number 5, .number 5]
      [(9, [.string "more"])] 3 [.nil] Z_FINISH (by decide) rfl (by decide) rfl⟩

theorem lz_filter_epilogue_log {σ : Type} (e : Env) (c : Codec σ) (sess : Session σ)
    (r : LoopResult σ) :
    (lz_filter_epilogue e c sess r).log = r.log ∨
    ∃ st, (lz_filter_epilogue e c sess r).log = r.log ++ [Event.teardown st] := by
  cases r with
  | raised err s l => left; rfl
  | running s l => left; rfl
  | done result s b l =>
    simp only [lz_filter_epilogue, LoopResult.log]
    split
    · right
      split <;> exact ⟨_, rfl⟩
    · left; rfl

/-- The steps of a feed call on an open session all carry the flush mode of
lines 122-137, and the first step of a call that reaches the loop is given the
effective input of lines 152-162. -/
theorem lz_filter_impl_steps {σ : Type} (e : Env) (c : Codec σ) (isDeflate : Bool)
    (name : String) (fuel : Nat) (sess : Session σ) (args : List LuaValue) (flush : Int)
    (hopen : sess.handle = true)
    (hflush : lz_filter_flush isDeflate args = .ok flush) :
    (∀ inp fl st, Event.step inp fl st ∈ (lz_filter_impl e c isDeflate name fuel sess args).log →
      fl = flush) ∧
    (¬ (({ sess.strm with next_in := lz_filter_input args sess.remainder }
            : ZStream σ).avail_in = 0 ∧ flush = 0) →
      ∃ st rest, (lz_filter_impl e c isDeflate name (fuel + 1) sess args).log =
        Event.step (lz_filter_input args sess.remainder) flush st :: rest) := by
  constructor
  · intro inp fl st hmem
    by_cases hn : (({ sess.strm with next_in := lz_filter_input args sess.remainder }
            : ZStream σ).avail_in = 0 ∧ flush = 0)
    · rw [lz_filter_impl_noop e c isDeflate name fuel sess args flush hopen hflush hn] at hmem
      simp at hmem
    · rw [lz_filter_impl_loop e c isDeflate name fuel sess args flush hopen hflush hn] at hmem
      obtain ⟨new, h1, h2, _⟩ := lz_filter_loop_log e c flush fuel
        { sess.strm with next_in := lz_filter_input args sess.remainder } "" []
      have hsteps : Event.step inp fl st ∈ new := by
        rcases lz_filter_epilogue_log e c
          { sess with strm := { sess.strm with next_in := lz_filter_input args sess.remainder } }
          (lz_filter_loop e c flush fuel
            { sess.strm with next_in := lz_filter_input args sess.remainder } "" [])
          with h | ⟨t, h⟩
        · rw [h, h1] at hmem; simpa using hmem
        · rw [h, h1] at hmem; simpa using hmem
      obtain ⟨inp2, st2, heq⟩ := h2 _ hsteps
      simp only [Event.step.injEq] at heq
      exact heq.2.1
  · intro hn
    rw [lz_filter_impl_loop e c isDeflate name (fuel + 1) sess args flush hopen hflush hn]
    obtain ⟨new, h1, _, h3⟩ := lz_filter_loop_log e c flush (fuel + 1)
      { sess.strm with next_in := lz_filter_input args sess.remainder } "" []
    obtain ⟨st, hst⟩ := h3 (Nat.succ_pos _)
    cases new with
    | nil => simp at hst
    | cons ev rest =>
      simp only [List.head?_cons, Option.some.injEq] at hst
      subst hst
      rcases lz_filter_epilogue_log e c
        { sess with strm := { sess.strm with next_in := lz_filter_input args sess.remainder } }
        (lz_filter_loop e c flush (fuel + 1)
          { sess.strm with next_in := lz_filter_input args sess.remainder } "" [])
        with h | ⟨t, h⟩
      · rw [h, h1]; exact ⟨st, rest, rfl⟩
      · rw [h, h1]; exact ⟨st, rest ++ [Event.teardown t], rfl⟩

theorem lz_filter_flush_nil (args : List LuaValue) (flush : Int)
    (hnil : args = [] ∨ args.head? = some LuaValue.nil)
    (hflush : lz_filter_flush true args = .ok flush) : flush = Z_FINISH := by
  have hc : args.length = 0 ∨ args.head? = some LuaValue.nil := by
    rcases hnil with h | h
    · left; rw [h]; rfl
    · right; exact h
  simp only [lz_filter_flush, if_true] at hflush
  split at hflush
  · simp at hflush
  · rw [if_pos hc] at hflush
    simp only [Except.ok.injEq] at hflush
    exact hflush.symm

theorem lz_filter_input_nil (args : List LuaValue) (remainder : Option String)
    (hnil : args = [] ∨ args.head? = some LuaValue.nil) :
    lz_filter_input args remainder = remainder := by
  rw [lz_filter_input_eq]
  rcases hnil with h | h
  · rw [h]; rfl
  · rw [h]; rfl

/-- C3 (counterexample): an open decompressor called without arguments steps
the codec on the stored remainder with `Z_NO_FLUSH`, not `Z_FINISH`; called
with nil on an empty remainder it does not step the codec at all.  (And an open
compressor called with nil and an option name that is not in the list raises
the argument error before any step.) -/
theorem inflate_nil_is_not_finish :
    (lz_inflate demoEnv storeCodec 9 (openSession 0 (some "ab")) []).log =
      [Event.step (some "ab") Z_NO_FLUSH Z_OK] ∧
    Z_NO_FLUSH ≠ Z_FINISH ∧
    lz_inflate demoEnv storeCodec 9 (openSession 0 none) [.nil] =
      ⟨.returned [.string "", .boolean false, .number 0, .number 0], openSession 0 none, []⟩ ∧
    lz_deflate demoEnv storeCodec 9 (openSession 0 none) [.nil, .string "bogus"] =
      ⟨.raised (.arg 2 "invalid option 'bogus'"), openSession 0 none, []⟩ := by
  decide

/-- C3 (amended): on an open session a feed call with no argument or a nil
first argument, whose argument 2 passes the option check, gives every step it
makes one flush mode: `Z_FINISH` on a compressor, whatever flush option was
passed, and `Z_NO_FLUSH` on a decompressor.  The compressor steps the codec,
and its first step is given the stored remainder alone.  So does the
decompressor when the remainder is not empty; with an absent or empty remainder
its call is the no-op and makes no step. -/
theorem feed_nil_finishes_compressor {σ : Type} (e : Env) (c : Codec σ) (isDeflate : Bool)
    (name : String) (fuel : Nat) (sess : Session σ) (args : List LuaValue) (flush : Int)
    (hopen : sess.handle = true)
    (hnil : args = [] ∨ args.head? = some LuaValue.nil)
    (hflush : lz_filter_flush isDeflate args = .ok flush) :
    flush = (if isDeflate then Z_FINISH else Z_NO_FLUSH) ∧
    (∀ inp fl st,
      Event.step inp fl st ∈ (lz_filter_impl e c isDeflate name fuel sess args).log →
      fl = flush) ∧
    (isDeflate = true →
      ∃ st rest, (lz_filter_impl e c isDeflate name (fuel + 1) sess args).log =
        Event.step sess.remainder Z_FINISH st :: rest) ∧
    (isDeflate = false → (sess.remainder ≠ none ∧ sess.remainder ≠ some "") →
      ∃ st rest, (lz_filter_impl e c isDeflate name (fuel + 1) sess args).log =
        Event.step sess.remainder Z_NO_FLUSH st :: rest) ∧
    (isDeflate = false → (sess.remainder = none ∨ sess.remainder = some "") →
      (lz_filter_impl e c isDeflate name fuel sess args).log = [] ∧
      (lz_filter_impl e c isDeflate name fuel sess args).outcome =
        .returned [.string "", .boolean false, .number sess.strm.total_in,
          .number sess.strm.total_out]) := by
  have hin := lz_filter_input_nil args sess.remainder hnil
  have hsteps := lz_filter_impl_steps e c isDeflate name fuel sess args flush hopen hflush
  rw [hin] at hsteps
  have hfl : flush = (if isDeflate then Z_FINISH else Z_NO_FLUSH) := by
    cases isDeflate with
    | true => exact lz_filter_flush_nil args flush hnil hflush
    | false =>
      rw [lz_filter_flush_inflate] at hflush
      simp only [Except.ok.injEq] at hflush
      simpa using hflush.symm
  refine ⟨hfl, hsteps.1, ?_, ?_, ?_⟩
  · intro hd
    subst hd
    simp only [if_true] at hfl
    subst hfl
    exact hsteps.2 (fun h => absurd h.2 (by decide))
  · intro hd hne
    subst hd
    simp only [Bool.false_eq_true, if_false] at hfl
    subst hfl
    apply hsteps.2
    intro h
    cases hr : sess.remainder with
    | none => exact hne.1 hr
    | some r =>
      rw [hr] at h
      simp only [ZStream.avail_in] at h
      have : r = "" := String.ext (List.length_eq_zero.mp h.1)
      exact hne.2 (by rw [hr, this])
  · intro hd hemp
    subst hd
    simp only [Bool.false_eq_true, if_false] at hfl
    subst hfl
    have hn : (({ sess.strm with next_in := lz_filter_input args sess.remainder }
            : ZStream σ).avail_in = 0 ∧ Z_NO_FLUSH = 0) := by
      refine ⟨?_, rfl⟩
      rw [hin]
      rcases hemp with h | h <;> simp [ZStream.avail_in, h]
    rw [lz_filter_impl_noop e c false name fuel sess args Z_NO_FLUSH hopen hflush hn]
    exact ⟨rfl, rfl⟩

/-- Witness of `feed_nil_finishes_compressor`: an open compressor holding the
remainder "ab", called with nil and the flush option "sync". -/
theorem feed_nil_finishes_compressor_witness :
    (openSession 0 (some "ab")).handle = true ∧
    [LuaValue.nil, LuaValue.string "sync"].head? = some LuaValue.nil ∧
    lz_filter_flush true [.nil, .string "sync"] = .ok Z_FINISH ∧
    (lz_filter_impl demoEnv storeCodec true "deflate" 1 (openSession 0 (some "ab"))
        [.nil, .string "sync"]).log =
      [Event.step (some "ab") Z_FINISH Z_STREAM_END, Event.teardown Z_OK] ∧
    ∃ st rest, (lz_filter_impl demoEnv storeCodec true "deflate" (0 + 1)
        (openSession 0 (some "ab")) [.nil, .string "sync"]).log =
      Event.step (openSession 0 (some "ab")).remainder Z_FINISH st :: rest :=
  ⟨rfl, rfl, rfl, by decide,
    (feed_nil_finishes_compressor demoEnv storeCodec true "deflate" 0
      (openSession 0 (some "ab")) [.nil, .string "sync"] Z_FINISH rfl (Or.inr rfl) rfl).2.2.1
      rfl⟩

theorem teardownStatuses_of_steps (flush : Int) (l : List Event)
    (h : ∀ ev ∈ l, ∃ inp st, ev = Event.step inp flush st) : teardownStatuses l = [] := by
  induction l with
  | nil => rfl
  | cons a t ih =>
    obtain ⟨inp, st, ha⟩ := h a (by simp)
    subst ha
    have := ih (fun ev hev => h ev (List.mem_cons_of_mem _ hev))
    simpa [teardownStatuses] using this

theorem teardownStatuses_append_teardown (l : List Event) (st : Int) :
    teardownStatuses (l ++ [Event.teardown st]) = teardownStatuses l ++ [st] := by
  simp [teardownStatuses]

/-- C7: for a feed call on an open session that reaches the loop, whatever
statuses the codec returns: the call raises exactly when some step returned a
status other than `Z_OK`, `Z_STREAM_END` and `Z_BUF_ERROR`, or the last step
reported `Z_STREAM_END` and the end function returned a status other than
`Z_OK` and `Z_STREAM_END`; a call that raises hands back no value, and the last
status it saw is not `Z_BUF_ERROR`. -/
theorem feed_raises_iff_bad_status {σ : Type} (e : Env) (c : Codec σ) (isDeflate : Bool)
    (name : String) (fuel : Nat) (sess : Session σ) (args : List LuaValue) (flush : Int)
    (hopen : sess.handle = true)
    (hflush : lz_filter_flush isDeflate args = .ok flush)
    (hloop : ¬ (({ sess.strm with next_in := lz_filter_input args sess.remainder }
            : ZStream σ).avail_in = 0 ∧ flush = 0)) :
    ((∃ err, (lz_filter_impl e c isDeflate name fuel sess args).outcome = .raised err) ↔
      ((∃ st ∈ stepStatuses (lz_filter_impl e c isDeflate name fuel sess args).log,
          st ≠ Z_OK ∧ st ≠ Z_STREAM_END ∧ st ≠ Z_BUF_ERROR) ∨
       ((stepStatuses (lz_filter_impl e c isDeflate name fuel sess args).log).getLast?
           = some Z_STREAM_END ∧
         ∃ st ∈ teardownStatuses (lz_filter_impl e c isDeflate name fuel sess args).log,
           st ≠ Z_OK ∧ st ≠ Z_STREAM_END))) ∧
    (∀ err, (lz_filter_impl e c isDeflate name fuel sess args).outcome = .raised err →
      (lz_filter_impl e c isDeflate name fuel sess args).outcome.values = [] ∧
      (stepStatuses (lz_filter_impl e c isDeflate name fuel sess args).log).getLast?
        ≠ some Z_BUF_ERROR) := by
  rw [lz_filter_impl_loop e c isDeflate name fuel sess args flush hopen hflush hloop]
  obtain ⟨new, h1, hsteps, _⟩ := lz_filter_loop_log e c flush fuel
    { sess.strm with next_in := lz_filter_input args sess.remainder } "" []
  obtain ⟨new2, h1', hdone, hraised, hrunning⟩ := lz_filter_loop_statuses e c flush fuel
    { sess.strm with next_in := lz_filter_input args sess.remainder } "" []
  have hnew : new2 = new := by
    rw [h1] at h1'
    simpa using h1'.symm
  subst hnew
  have htd := teardownStatuses_of_steps flush new2 hsteps
  have hgood : ∀ st, goodStep st ↔ ¬ (st ≠ Z_OK ∧ st ≠ Z_STREAM_END ∧ st ≠ Z_BUF_ERROR) := by
    intro st
    unfold goodStep
    constructor
    · rintro (h | h | h) ⟨a, b, d⟩
      · exact a h
      · exact b h
      · exact d h
    · intro h
      by_contra hc
      exact h ⟨fun x => hc (Or.inl x), fun x => hc (Or.inr (Or.inl x)),
        fun x => hc (Or.inr (Or.inr x))⟩
  clear h1'
  generalize lz_filter_loop e c flush fuel
      { sess.strm with next_in := lz_filter_input args sess.remainder } "" [] = L
      at h1 hdone hraised hrunning ⊢
  cases L with
  | raised err s l =>
    simp only [LoopResult.log, List.nil_append] at h1
    subst h1
    obtain ⟨_, st, hlast, hbad⟩ := hraised err s l rfl
    simp only [lz_filter_epilogue]
    refine ⟨⟨fun _ => Or.inl ⟨st, List.mem_of_getLast?_eq_some hlast, ?_⟩, fun _ => ⟨err, rfl⟩⟩,
      ?_⟩
    · by_contra hc
      exact hbad ((hgood st).mpr hc)
    · intro err2 _
      refine ⟨rfl, ?_⟩
      rw [hlast]
      intro heq
      simp only [Option.some.injEq] at heq
      exact hbad (Or.inr (Or.inr heq))
  | running s l =>
    simp only [LoopResult.log, List.nil_append] at h1
    subst h1
    have hall := hrunning s l rfl
    simp only [lz_filter_epilogue]
    refine ⟨⟨fun ⟨err, h⟩ => by simp at h, ?_⟩, fun err h => by simp at h⟩
    rintro (⟨st, hst, hb⟩ | ⟨_, st, hst, _⟩)
    · exact absurd hb ((hgood st).mp (hall st hst))
    · rw [htd] at hst; simp at hst
  | done result s b l =>
    simp only [LoopResult.log, List.nil_append] at h1
    subst h1
    obtain ⟨hall, hlast⟩ := hdone result s b l rfl
    by_cases hse : result = Z_STREAM_END
    · subst hse
      by_cases hok : (c.end_ s).1 = Z_OK ∨ (c.end_ s).1 = Z_STREAM_END
      · simp only [lz_filter_epilogue, if_true, lz_assert_ok e _ _ _ _ hok]
        refine ⟨⟨fun ⟨err, h⟩ => by simp at h, ?_⟩, fun err h => by simp at h⟩
        rw [stepStatuses_append_teardown, teardownStatuses_append_teardown, htd]
        rintro (⟨st, hst, hb⟩ | ⟨_, st, hst, hb⟩)
        · exact absurd hb ((hgood st).mp (hall st hst))
        · simp only [List.nil_append, List.mem_singleton] at hst
          subst hst
          rcases hok with h | h
          · exact absurd h hb.1
          · exact absurd h hb.2
      · obtain ⟨m, hm⟩ := lz_assert_error e (c.end_ s).1 (c.end_ s).2 e.file 207 hok
        simp only [lz_filter_epilogue, if_true, hm]
        rw [stepStatuses_append_teardown, teardownStatuses_append_teardown, htd]
        refine ⟨⟨fun _ => Or.inr ⟨hlast, (c.end_ s).1, by simp, ?_⟩, fun _ => ⟨_, rfl⟩⟩, ?_⟩
        · exact ⟨fun h => hok (Or.inl h), fun h => hok (Or.inr h)⟩
        · intro err2 _
          refine ⟨rfl, ?_⟩
          rw [hlast]
          decide
    · simp only [lz_filter_epilogue, hse, if_false]
      refine ⟨⟨fun ⟨err, h⟩ => by simp at h, ?_⟩, fun err h => by simp at h⟩
      rintro (⟨st, hst, hb⟩ | ⟨hl, _⟩)
      · exact absurd hb ((hgood st).mp (hall st hst))
      · rw [hlast] at hl
        simp only [Option.some.injEq] at hl
        exact absurd hl hse

/-- Witness of `feed_raises_iff_bad_status`: a decompressor whose codec answers
`Z_DATA_ERROR`, fed one byte. -/
theorem feed_raises_iff_bad_status_witness :
    (openSession Z_DATA_ERROR none).handle = true ∧
    lz_filter_flush false [.string "x"] = .ok Z_NO_FLUSH ∧
    ¬ (({ (openSession Z_DATA_ERROR none).strm with
          next_in := lz_filter_input [.string "x"] (openSession Z_DATA_ERROR none).remainder }
        : ZStream Int).avail_in = 0 ∧ Z_NO_FLUSH = 0) ∧
    (lz_filter_impl demoEnv failCodec false "inflate" 9 (openSession Z_DATA_ERROR none)
        [.string "x"]).log = [Event.step (some "x") Z_NO_FLUSH Z_DATA_ERROR] ∧
    ∃ err, (lz_filter_impl demoEnv failCodec false "inflate" 9 (openSession Z_DATA_ERROR none)
        [.string "x"]).outcome = .raised err :=
  ⟨rfl, rfl, by decide, by decide,
    (feed_raises_iff_bad_status demoEnv failCodec false "inflate" 9
      (openSession Z_DATA_ERROR none) [.string "x"] Z_NO_FLUSH rfl rfl (by decide)).1.mpr
      (Or.inl ⟨Z_DATA_ERROR, by decide, by decide⟩)⟩

theorem teardowns_of_steps (flush : Int) (l : List Event)
    (h : ∀ ev ∈ l, ∃ inp st, ev = Event.step inp flush st) : teardowns l = 0 := by
  induction l with
  | nil => rfl
  | cons a t ih =>
    obtain ⟨inp, st, ha⟩ := h a (by simp)
    subst ha
    have := ih (fun ev hev => h ev (List.mem_cons_of_mem _ hev))
    simpa [teardowns] using this

theorem teardowns_append (a b : List Event) :
    teardowns (a ++ b) = teardowns a + teardowns b := by
  simp [teardowns, List.countP_append]

/-- A feed call calls the end function at most once, and only on an open
session, which it leaves closed and disarmed (also when the call raises);
a call that does not call it leaves the handle and the finalizer alone. -/
theorem lz_filter_impl_teardowns {σ : Type} (e : Env) (c : Codec σ) (isDeflate : Bool)
    (name : String) (fuel : Nat) (sess : Session σ) (args : List LuaValue) :
    (teardowns (lz_filter_impl e c isDeflate name fuel sess args).log = 0 ∧
      (lz_filter_impl e c isDeflate name fuel sess args).sess.armed = sess.armed ∧
      (lz_filter_impl e c isDeflate name fuel sess args).sess.handle = sess.handle) ∨
    (teardowns (lz_filter_impl e c isDeflate name fuel sess args).log = 1 ∧
      sess.handle = true ∧
      (lz_filter_impl e c isDeflate name fuel sess args).sess.armed = false ∧
      (lz_filter_impl e c isDeflate name fuel sess args).sess.handle = false) := by
  cases hf : lz_filter_flush isDeflate args with
  | error err =>
    rw [lz_filter_impl_argerror e c isDeflate name fuel sess args err hf]
    left; exact ⟨rfl, rfl, rfl⟩
  | ok flush =>
    cases ho : sess.handle with
    | false =>
      obtain ⟨h1, h2, _⟩ := lz_filter_impl_closed_state e c isDeflate name fuel sess args ho
      left
      rw [h1, h2]
      exact ⟨rfl, rfl, ho⟩
    | true =>
      by_cases hn : (({ sess.strm with next_in := lz_filter_input args sess.remainder }
            : ZStream σ).avail_in = 0 ∧ flush = 0)
      · rw [lz_filter_impl_noop e c isDeflate name fuel sess args flush ho hf hn]
        left; exact ⟨rfl, rfl, ho⟩
      · rw [lz_filter_impl_loop e c isDeflate name fuel sess args flush ho hf hn]
        obtain ⟨new, h1, hsteps, _⟩ := lz_filter_loop_log e c flush fuel
          { sess.strm with next_in := lz_filter_input args sess.remainder } "" []
        have h0 := teardowns_of_steps flush new hsteps
        generalize lz_filter_loop e c flush fuel
          { sess.strm with next_in := lz_filter_input args sess.remainder } "" [] = L
          at h1 ⊢
        cases L with
        | raised err s l =>
          simp only [LoopResult.log, List.nil_append] at h1
          subst h1
          left; exact ⟨h0, rfl, ho⟩
        | running s l =>
          simp only [LoopResult.log, List.nil_append] at h1
          subst h1
          left; exact ⟨h0, rfl, ho⟩
        | done result s b l =>
          simp only [LoopResult.log, List.nil_append] at h1
          subst h1
          by_cases hse : result = Z_STREAM_END
          · right
            simp only [lz_filter_epilogue, hse, if_true]
            have h01 : ∀ st, teardowns (l ++ [Event.teardown st]) = 1 := by
              intro st; rw [teardowns_append, h0]; rfl
            split <;> simp [h01]
          · left
            simp only [lz_filter_epilogue, hse, if_false]
            simp [h0, ho]

theorem feedAll_teardowns {σ : Type} (e : Env) (c : Codec σ) (isDeflate : Bool)
    (name : String) (calls : List (Nat × List LuaValue)) :
    ∀ sess : Session σ,
    (teardowns (feedAll e c isDeflate name calls sess).2.2 = 0 ∧
      (feedAll e c isDeflate name calls sess).2.1.armed = sess.armed ∧
      (feedAll e c isDeflate name calls sess).2.1.handle = sess.handle) ∨
    (teardowns (feedAll e c isDeflate name calls sess).2.2 = 1 ∧
      sess.handle = true ∧
      (feedAll e c isDeflate name calls sess).2.1.armed = false ∧
      (feedAll e c isDeflate name calls sess).2.1.handle = false) := by
  induction calls with
  | nil => intro sess; left; exact ⟨rfl, rfl, rfl⟩
  | cons call rest ih =>
    intro sess
    have hcall := lz_filter_impl_teardowns e c isDeflate name call.1 sess call.2
    have hrest := ih (lz_filter_impl e c isDeflate name call.1 sess call.2).sess
    have hstep : ∀ t : Bool × Session σ × List Event,
        ((teardowns t.2.2 = 0 ∧ t.2.1.armed =
              (lz_filter_impl e c isDeflate name call.1 sess call.2).sess.armed ∧
            t.2.1.handle = (lz_filter_impl e c isDeflate name call.1 sess call.2).sess.handle) ∨
          (teardowns t.2.2 = 1 ∧
            (lz_filter_impl e c isDeflate name call.1 sess call.2).sess.handle = true ∧
            t.2.1.armed = false ∧ t.2.1.handle = false)) →
        (teardowns ((lz_filter_impl e c isDeflate name call.1 sess call.2).log ++ t.2.2) = 0 ∧
            t.2.1.armed = sess.armed ∧ t.2.1.handle = sess.handle) ∨
          (teardowns ((lz_filter_impl e c isDeflate name call.1 sess call.2).log ++ t.2.2) = 1 ∧
            sess.handle = true ∧ t.2.1.armed = false ∧ t.2.1.handle = false) := by
      intro t ht
      rw [teardowns_append]
      rcases hcall with ⟨a1, a2, a3⟩ | ⟨a1, a2, a3, a4⟩
      · rcases ht with ⟨b1, b2, b3⟩ | ⟨b1, b2, b3, b4⟩
        · left; exact ⟨by omega, by rw [b2, a2], by rw [b3, a3]⟩
        · right; exact ⟨by omega, by rw [← a3]; exact b2, b3, b4⟩
      · rcases ht with ⟨b1, b2, b3⟩ | ⟨b1, b2, b3, b4⟩
        · right; exact ⟨by omega, a2, by rw [b2, a3], by rw [b3, a4]⟩
        · rw [a4] at b2; exact absurd b2 (by decide)
    rw [feedAll]
    split
    · exact hcall
    · exact hstep _ hrest

theorem collect_teardowns {σ : Type} (c : Codec σ) (isDeflate : Bool) (armed : Bool)
    (strm : ZStream σ) :
    teardowns (collect c isDeflate armed strm) = if armed then 1 else 0 := by
  cases armed <;> cases isDeflate <;> rfl

theorem lifetime_teardowns {σ : Type} (e : Env) (c : Codec σ) (isDeflate : Bool)
    (name : String) (created : Created σ) (calls : List (Nat × List LuaValue)) :
    teardowns (lifetime e c isDeflate name created calls) ≤ 1 := by
  cases created with
  | failed err strm armed =>
    simp only [lifetime, collect_teardowns]
    split <;> omega
  | closure s =>
    simp only [lifetime]
    have h := feedAll_teardowns e c isDeflate name calls s
    split
    · rw [teardowns_append, collect_teardowns]
      rcases h with ⟨a1, _, _⟩ | ⟨a1, _, a3, _⟩
      · rw [a1]; split <;> omega
      · rw [a1, a3]; simp
    · rcases h with ⟨a1, _, _⟩ | ⟨a1, _, _, _⟩ <;> omega

/-- A session that was created successfully and whose calls all came back is
torn down exactly once. -/
theorem lifetime_teardowns_completed {σ : Type} (e : Env) (c : Codec σ) (isDeflate : Bool)
    (name : String) (sess : Session σ) (calls : List (Nat × List LuaValue))
    (harmed : sess.armed = true)
    (hdone : (feedAll e c isDeflate name calls sess).1 = true) :
    teardowns (lifetime e c isDeflate name (.closure sess) calls) = 1 := by
  simp only [lifetime, hdone, if_true]
  rw [teardowns_append, collect_teardowns]
  rcases feedAll_teardowns e c isDeflate name calls sess with ⟨a1, a2, _⟩ | ⟨a1, _, a3, _⟩
  · rw [a1, a2, harmed]; rfl
  · rw [a1, a3]; rfl

/-- C10: over the whole life of a session (creation by `lz_deflate_new` or
`lz_inflate_new`, any feed calls with any arguments and any codec statuses,
raising ones included, then collection of the userdata) the end function is
called at most once; a constructor whose `lz_assert` raised leaves the userdata
without finalizer; and a feed call that calls the end function leaves the
session disarmed and without handle, whether or not it then raises. -/
theorem teardown_at_most_once {σ : Type} (e : Env) (c : Codec σ) (arg : Int)
    (mem : ZStream σ) (calls : List (Nat × List LuaValue)) :
    teardowns (lifetime e c true "deflate" (lz_deflate_new e c arg mem) calls) ≤ 1 ∧
    teardowns (lifetime e c false "inflate" (lz_inflate_new e c arg mem) calls) ≤ 1 ∧
    (∀ (isDeflate : Bool) (name : String) (created : Created σ),
      teardowns (lifetime e c isDeflate name created calls) ≤ 1) ∧
    (∀ err strm armed, lz_deflate_new e c arg mem = .failed err strm armed → armed = false) ∧
    (∀ err strm armed, lz_inflate_new e c arg mem = .failed err strm armed → armed = false) ∧
    (∀ (isDeflate : Bool) (name : String) (fuel : Nat) (sess : Session σ)
        (args : List LuaValue),
      teardowns (lz_filter_impl e c isDeflate name fuel sess args).log ≤ 1 ∧
      (teardowns (lz_filter_impl e c isDeflate name fuel sess args).log = 1 →
        (lz_filter_impl e c isDeflate name fuel sess args).sess.armed = false ∧
        (lz_filter_impl e c isDeflate name fuel sess args).sess.handle = false)) := by
  refine ⟨lifetime_teardowns e c _ _ _ calls, lifetime_teardowns e c _ _ _ calls,
    fun isDeflate name created => lifetime_teardowns e c isDeflate name created calls,
    ?_, ?_, ?_⟩
  · intro err strm armed h
    simp only [lz_deflate_new] at h
    split at h
    · simp only [Created.failed.injEq] at h
      exact h.2.2.symm
    · simp at h
  · intro err strm armed h
    simp only [lz_inflate_new] at h
    split at h
    · simp only [Created.failed.injEq] at h
      exact h.2.2.symm
    · simp at h
  · intro isDeflate name fuel sess args
    rcases lz_filter_impl_teardowns e c isDeflate name fuel sess args with
      ⟨a1, _, _⟩ | ⟨a1, _, a3, a4⟩
    · exact ⟨by omega, fun h => by omega⟩
    · exact ⟨by omega, fun _ => ⟨a3, a4⟩⟩

/-- Witness of `teardown_at_most_once`: a compressor that is finished by its
second call, called twice more (once with data, which raises) and then
collected, is torn down once; a constructor whose init reports
`Z_MEM_ERROR` leaves an unarmed userdata. -/
theorem teardown_at_most_once_witness :
    teardowns (lifetime demoEnv storeCodec true "deflate"
        (lz_deflate_new demoEnv storeCodec (-1) (blank 7))
        [(9, [.string "hello "]), (9, [.string "world", .string "finish"]),
          (9, [.string "more"]), (9, [])]) = 1 ∧
    teardowns (lifetime demoEnv storeCodec true "deflate"
        (lz_deflate_new demoEnv storeCodec (-1) (blank 7))
        [(9, [.string "hello "]), (9, [.string "world", .string "finish"]),
          (9, [.string "more"]), (9, [])]) ≤ 1 ∧
    teardowns (lifetime demoEnv failCodec true "deflate"
        (lz_deflate_new demoEnv failCodec (-1) (blank Z_MEM_ERROR)) [(9, [])]) = 0 :=
  ⟨by decide,
    (teardown_at_most_once demoEnv storeCodec (-1) (blank 7)
      [(9, [.string "hello "]), (9, [.string "world", .string "finish"]),
        (9, [.string "more"]), (9, [])]).1,
    by decide⟩

/-- The effective input when both a stored remainder and a string argument are
present: the argument first, the remainder after it. -/
theorem lz_filter_input_string (s r : String) (rest : List LuaValue) :
    lz_filter_input (LuaValue.string s :: rest) (some r) = some (s ++ r) := by
  rw [lz_filter_input_eq]
  rfl

/-- Evaluation with a codec outside the contract `usesUpInput`: a decompressor
whose first call, on "ab", left the remainder "b" hands the codec "cb" when it
is then fed "c". -/
theorem feed_input_order_evaluated :
    lz_inflate_new demoEnv lazyCodec 47 (blank 0) = .closure (openSession 0 none) ∧
    (lz_inflate demoEnv lazyCodec 9 (openSession 0 none) [.string "ab"]).sess.remainder
      = some "b" ∧
    (lz_inflate demoEnv lazyCodec 9 (openSession 0 none) [.string "ab"]).sess.handle = true ∧
    (lz_inflate demoEnv lazyCodec 9
        (lz_inflate demoEnv lazyCodec 9 (openSession 0 none) [.string "ab"]).sess
        [.string "c"]).log = [Event.step (some "cb") Z_NO_FLUSH Z_OK] ∧
    lz_filter_input [.string "c"] (some "b") = some "cb" ∧
    "cb" ≠ "b" ++ "c" := by
  refine ⟨rfl, ?_, ?_, ?_, ?_, ?_⟩ <;> decide

/-- The input order in general: on an open session with the stored remainder
`r`, a feed call whose first argument is the string `s` and which reaches the
loop gives its first step the bytes of `s` followed by `r`. -/
theorem feed_hands_argument_then_remainder {σ : Type} (e : Env) (c : Codec σ)
    (isDeflate : Bool) (name : String) (fuel : Nat) (sess : Session σ) (s r : String)
    (rest : List LuaValue) (flush : Int)
    (hopen : sess.handle = true)
    (hrem : sess.remainder = some r)
    (hflush : lz_filter_flush isDeflate (LuaValue.string s :: rest) = .ok flush)
    (hloop : (s ++ r).length ≠ 0 ∨ flush ≠ 0) :
    ∃ st more,
      (lz_filter_impl e c isDeflate name (fuel + 1) sess (LuaValue.string s :: rest)).log =
        Event.step (some (s ++ r)) flush st :: more := by
  have h := (lz_filter_impl_steps e c isDeflate name fuel sess (LuaValue.string s :: rest)
    flush hopen hflush).2
  rw [hrem, lz_filter_input_string] at h
  apply h
  rintro ⟨h1, h2⟩
  rcases hloop with hl | hl
  · exact hl h1
  · exact hl h2

/-- Fuel only matters to a loop that is still running: a loop that has left
with some fuel leaves in the same way with more. -/
theorem lz_filter_loop_fuel {σ : Type} (e : Env) (c : Codec σ) (flush : Int) (fuel : Nat) :
    ∀ (strm : ZStream σ) (buff : String) (log : List Event),
    (∀ s l, lz_filter_loop e c flush fuel strm buff log ≠ .running s l) →
    lz_filter_loop e c flush (fuel + 1) strm buff log =
      lz_filter_loop e c flush fuel strm buff log := by
  induction fuel with
  | zero =>
    intro strm buff log h
    exact absurd rfl (h strm log)
  | succ fuel ih =>
    intro strm buff log h
    rw [lz_filter_loop, lz_filter_loop]
    rw [lz_filter_loop] at h
    split
    · rfl
    · rename_i heq
      simp only [heq] at h ⊢
      split
      · rename_i hfull
        simp only [hfull, if_true] at h
        exact ih _ _ _ h
      · rfl

/-- A feed call that has returned or raised with some fuel does the same with
more fuel. -/
theorem lz_filter_impl_fuel {σ : Type} (e : Env) (c : Codec σ) (isDeflate : Bool)
    (name : String) (fuel : Nat) (sess : Session σ) (args : List LuaValue)
    (h : (lz_filter_impl e c isDeflate name fuel sess args).outcome ≠ .running) :
    lz_filter_impl e c isDeflate name (fuel + 1) sess args =
      lz_filter_impl e c isDeflate name fuel sess args := by
  cases hf : lz_filter_flush isDeflate args with
  | error err =>
    rw [lz_filter_impl_argerror e c isDeflate name _ sess args err hf,
      lz_filter_impl_argerror e c isDeflate name _ sess args err hf]
  | ok flush =>
    cases ho : sess.handle with
    | false =>
      rw [lz_filter_impl_closed e c isDeflate name _ sess args flush ho hf,
        lz_filter_impl_closed e c isDeflate name _ sess args flush ho hf]
    | true =>
      by_cases hn : (({ sess.strm with next_in := lz_filter_input args sess.remainder }
            : ZStream σ).avail_in = 0 ∧ flush = 0)
      · rw [lz_filter_impl_noop e c isDeflate name _ sess args flush ho hf hn,
          lz_filter_impl_noop e c isDeflate name _ sess args flush ho hf hn]
      · rw [lz_filter_impl_loop e c isDeflate name _ sess args flush ho hf hn] at h
        rw [lz_filter_impl_loop e c isDeflate name _ sess args flush ho hf hn,
          lz_filter_impl_loop e c isDeflate name _ sess args flush ho hf hn,
          lz_filter_loop_fuel]
        intro s l hrun
        rw [hrun] at h
        exact h rfl

theorem lazyCodec_not_usesUpInput : ¬ usesUpInput demoEnv lazyCodec := by
  intro h
  have := h { next_in := some "ab", total_in := 0, total_out := 0, msg := none, state := 0 }
    Z_NO_FLUSH (Or.inl rfl) (by decide) (by decide)
  revert this
  decide

end LuaZlib
